import Mathlib

/-!
# rules-doctor: a verification model of the core engine

This file embeds the core of the `rules-doctor` CLI (source: `src/index.js` and
`src/adapters/*`) into Lean 4: the YAML-subset document parser and serializer,
the normalizer, the marker-managed section merge, path resolution, sync
planning with its pre-flight conflict check, and the CLI dispatch loop.
JavaScript strings are modeled as Lean `String` (lists of characters),
JavaScript dynamic values as the inductive type `Value`, and the filesystem as
an association list from absolute path to entry.  Theorems at the end of the
file settle the specified properties of these functions.
-/

set_option maxRecDepth 100000

namespace RulesDoctor

/-- The single-quote character (used to build string literals containing it). -/
def sq : Char := Char.ofNat 39

/-- The backslash character. -/
def bsl : Char := Char.ofNat 92

/-- Whitespace as trimmed by JavaScript `String.prototype.trim` (the ASCII
whitespace characters; the tool only processes ASCII configuration text). -/
def isWsChar (c : Char) : Bool :=
  c = ' ' || c = '\t' || c = '\n' || c = '\r' || c = '\x0b' || c = '\x0c'

/-- Drop leading whitespace (JS `trimStart`). -/
def trimStartL (l : List Char) : List Char := l.dropWhile isWsChar

/-- Drop trailing whitespace (JS `trimEnd`). -/
def trimEndL (l : List Char) : List Char := (l.reverse.dropWhile isWsChar).reverse

/-- JS `String.prototype.trim` on character lists. -/
def trimL (l : List Char) : List Char := trimEndL (trimStartL l)

/-- JS `value.trim()`. -/
def jsTrim (s : String) : String := ⟨trimL s.data⟩

/-- JS `value.trimEnd()`. -/
def jsTrimEnd (s : String) : String := ⟨trimEndL s.data⟩

/-- `text.replace(/\r\n/g, "\n")`: normalize CRLF line endings. -/
def replaceCrlfL : List Char → List Char
  | '\r' :: '\n' :: rest => '\n' :: replaceCrlfL rest
  | c :: rest => c :: replaceCrlfL rest
  | [] => []

/-- `text.split(sep)` for a one-character separator; `""` splits to `[""]`
as in JS. -/
def splitOnCharL (sep : Char) : List Char → List (List Char)
  | [] => [[]]
  | c :: rest =>
    let r := splitOnCharL sep rest
    if c = sep then [] :: r
    else
      match r with
      | h :: t => (c :: h) :: t
      | [] => [[c]]

/-- `text.split("\n")` on character lists. -/
def splitNlL : List Char → List (List Char) := splitOnCharL '\n'

/-- `lines.join("\n")` on character lists. -/
def joinNlL : List (List Char) → List Char
  | [] => []
  | [l] => l
  | l :: rest => l ++ '\n' :: joinNlL rest

/-- A character matched by the key pattern `[a-zA-Z0-9_-]`. -/
def isKeyChar (c : Char) : Bool :=
  c.isAlpha || c.isDigit || c = '_' || c = '-'

/-- The match `line.match(/^([a-zA-Z0-9_-]+):(.*)$/)`: a non-empty run of key
characters, a colon, and the remainder of the line.  Because a key character
is never a colon, the greedy match is the longest key-character prefix. -/
def matchKeyValue (l : List Char) : Option (List Char × List Char) :=
  let key := l.takeWhile isKeyChar
  match l.dropWhile isKeyChar with
  | ':' :: tail => if key = [] then none else some (key, tail)
  | _ => none

/-- JavaScript dynamic values as produced by `JSON.parse` and the YAML
fallback scanner: strings, integer numbers, booleans, `null`, arrays and
objects (association lists in insertion order). -/
inductive Value where
  | vStr (s : String)
  | vInt (n : Int)
  | vBool (b : Bool)
  | vNull
  | vList (items : List Value)
  | vObj (fields : List (String × Value))

/-- Object field lookup (`obj[key]`, `undefined` as `none`). -/
def objGet (fields : List (String × Value)) (k : String) : Option Value :=
  match fields with
  | [] => none
  | (k', v) :: rest => if k' = k then some v else objGet rest k

/-- Object field assignment `obj[key] = v`: replaces an existing key in place
(JS objects keep the original insertion position) or appends a new one. -/
def objSet (fields : List (String × Value)) (k : String) (v : Value) :
    List (String × Value) :=
  match fields with
  | [] => [(k, v)]
  | (k', v') :: rest =>
    if k' = k then (k, v) :: rest else (k', v') :: objSet rest k v

/-- JSON whitespace (space, tab, line feed, carriage return). -/
def skipJsonWs (l : List Char) : List Char :=
  l.dropWhile (fun c => c = ' ' || c = '\t' || c = '\n' || c = '\r')

/-- Body of a JSON string literal after the opening quote: returns the decoded
characters and the input following the closing quote.  Models `JSON.parse`
string handling for the escapes `\" \\ \/ \b \f \n \r \t`; a `\uXXXX` escape
or an unescaped control character makes the parse fail (the configuration
text this tool reads never contains them). -/
def jsonStringBody : List Char → Option (List Char × List Char)
  | [] => none
  | c :: rest =>
    if c = '"' then some ([], rest)
    else if c = bsl then
      match rest with
      | [] => none
      | e :: rest' =>
        let dec : Option Char :=
          if e = '"' then some '"'
          else if e = bsl then some bsl
          else if e = '/' then some '/'
          else if e = 'b' then some '\x08'
          else if e = 'f' then some '\x0c'
          else if e = 'n' then some '\n'
          else if e = 'r' then some '\r'
          else if e = 't' then some '\t'
          else none
        match dec with
        | none => none
        | some d =>
          match jsonStringBody rest' with
          | none => none
          | some (s, rem) => some (d :: s, rem)
    else if c.val < 32 then none
    else
      match jsonStringBody rest with
      | none => none
      | some (s, rem) => some (c :: s, rem)

/-- Decimal digits to a natural number. -/
def digitsToNat (l : List Char) : Nat :=
  l.foldl (fun acc c => acc * 10 + (c.toNat - '0'.toNat)) 0

/-- A JSON integer numeral after an optional minus sign: digits without a
forbidden leading zero, not followed by a fraction or exponent (fractional
numerals make this model fail; no input this development evaluates reaches
that case). -/
def jsonIntTail (l : List Char) : Option (Nat × List Char) :=
  let digits := l.takeWhile Char.isDigit
  let rest := l.dropWhile Char.isDigit
  if digits = [] then none
  else if digits.length > 1 && digits.head? = some '0' then none
  else
    match rest with
    | '.' :: _ => none
    | 'e' :: _ => none
    | 'E' :: _ => none
    | _ => some (digitsToNat digits, rest)

mutual

/-- Fuel-bounded model of `JSON.parse` for one value; returns the value and
the remaining input. -/
def jsonValueAux : Nat → List Char → Option (Value × List Char)
  | 0, _ => none
  | fuel + 1, l =>
    match skipJsonWs l with
    | [] => none
    | c :: rest =>
      if c = '"' then
        match jsonStringBody rest with
        | none => none
        | some (s, rem) => some (Value.vStr ⟨s⟩, rem)
      else if c = '{' then
        match skipJsonWs rest with
        | '}' :: rem => some (Value.vObj [], rem)
        | l' => jsonMembersAux fuel l' []
      else if c = '[' then
        match skipJsonWs rest with
        | ']' :: rem => some (Value.vList [], rem)
        | l' => jsonItemsAux fuel l' []
      else if c = 't' then
        match rest with
        | 'r' :: 'u' :: 'e' :: rem => some (Value.vBool true, rem)
        | _ => none
      else if c = 'f' then
        match rest with
        | 'a' :: 'l' :: 's' :: 'e' :: rem => some (Value.vBool false, rem)
        | _ => none
      else if c = 'n' then
        match rest with
        | 'u' :: 'l' :: 'l' :: rem => some (Value.vNull, rem)
        | _ => none
      else if c = '-' then
        match jsonIntTail rest with
        | none => none
        | some (n, rem) => some (Value.vInt (-(n : Int)), rem)
      else if c.isDigit then
        match jsonIntTail (c :: rest) with
        | none => none
        | some (n, rem) => some (Value.vInt (n : Int), rem)
      else none

/-- Members of a JSON object after `{` (first member not yet read). -/
def jsonMembersAux : Nat → List Char → List (String × Value) →
    Option (Value × List Char)
  | 0, _, _ => none
  | fuel + 1, l, acc =>
    match skipJsonWs l with
    | '"' :: rest =>
      match jsonStringBody rest with
      | none => none
      | some (k, rem) =>
        match skipJsonWs rem with
        | ':' :: rem' =>
          match jsonValueAux fuel rem' with
          | none => none
          | some (v, rem'') =>
            let acc' := objSet acc ⟨k⟩ v
            match skipJsonWs rem'' with
            | ',' :: rem''' => jsonMembersAux fuel rem''' acc'
            | '}' :: rem''' => some (Value.vObj acc', rem''')
            | _ => none
        | _ => none
    | _ => none

/-- Items of a JSON array after `[` (first item not yet read). -/
def jsonItemsAux : Nat → List Char → List Value → Option (Value × List Char)
  | 0, _, _ => none
  | fuel + 1, l, acc =>
    match jsonValueAux fuel l with
    | none => none
    | some (v, rem) =>
      let acc' := acc ++ [v]
      match skipJsonWs rem with
      | ',' :: rem' => jsonItemsAux fuel rem' acc'
      | ']' :: rem' => some (Value.vList acc', rem')
      | _ => none

end

/-- `JSON.parse(text)`: parse one value and require only whitespace after it;
`none` models a thrown `SyntaxError`. -/
def jsonParse (s : String) : Option Value :=
  match jsonValueAux (s.data.length + 1) s.data with
  | none => none
  | some (v, rem) => if skipJsonWs rem = [] then some v else none

/-- `trimmed.replace(/'/g, '"')`. -/
def replaceSqL (l : List Char) : List Char :=
  l.map (fun c => if c = sq then '"' else c)

/-- `stripQuotes` from `src/index.js`: trim, and if the text is wrapped in
matching double or single quotes, try `JSON.parse` after globally replacing
single quotes with double quotes, falling back to `slice(1, -1)`. -/
def stripQuotes (value : String) : String :=
  let trimmed := trimL value.data
  if (trimmed.head? = some '"' && trimmed.getLast? = some '"') ||
      (trimmed.head? = some sq && trimmed.getLast? = some sq) then
    match jsonParse ⟨replaceSqL trimmed⟩ with
    | some (Value.vStr s) => s
    | some _ => ⟨(trimmed.drop 1).dropLast⟩
    | none => ⟨(trimmed.drop 1).dropLast⟩
  else ⟨trimmed⟩

/-- `/^-?\d+$/.test(cleaned)`. -/
def isIntLit (l : List Char) : Bool :=
  match l with
  | '-' :: rest => rest ≠ [] && rest.all Char.isDigit
  | _ => l ≠ [] && l.all Char.isDigit

/-- `Number(cleaned)` on a string matching `/^-?\d+$/`. -/
def strToInt (l : List Char) : Int :=
  match l with
  | '-' :: rest => -(digitsToNat rest : Int)
  | _ => (digitsToNat l : Int)

/-- `parseScalar` from `src/index.js`: strip quotes, then coerce boolean,
null and integer literals, otherwise keep the string. -/
def parseScalar (value : String) : Value :=
  let cleaned := stripQuotes value
  let lower : String := ⟨cleaned.data.map Char.toLower⟩
  if lower = ("true") then Value.vBool true
  else if lower = ("false") then Value.vBool false
  else if cleaned = ("null") ∨ cleaned = ("~") then Value.vNull
  else if isIntLit cleaned.data then Value.vInt (strToInt cleaned.data)
  else Value.vStr cleaned

/-- Mutable state of the line-oriented fallback scanner in `parseRulesText`:
the accumulated tree and the `section` / `nested` / `currentTarget`
cursors.  (`section` is renamed `sectionKey`: `section` is a Lean keyword.) -/
structure PState where
  data : List (String × Value)
  sectionKey : Option String
  nested : Option String
  currentTarget : Option String

/-- `data[section].push(item)` for a list-valued section; leaves the tree
unchanged if the key is not currently an array (unreachable: the scanner
creates the array when it opens the section). -/
def pushItem (data : List (String × Value)) (k : String) (item : Value) :
    List (String × Value) :=
  match objGet data k with
  | some (Value.vList l) => objSet data k (Value.vList (l ++ [item]))
  | _ => data

/-- The body of the `for (const rawLine of lines)` loop in `parseRulesText`. -/
def processLine (st : PState) (rawLine : List Char) : PState :=
  if trimL rawLine = [] || (trimL rawLine).head? = some '#' then st
  else
    let indent := (rawLine.takeWhile (· = ' ')).length
    let line := trimL rawLine
    if indent = 0 then
      let st := { st with nested := none, currentTarget := none }
      match matchKeyValue line with
      | none => st
      | some (key, rest) =>
        let keyS : String := ⟨key⟩
        let value := trimL rest
        if value = [] then
          let data :=
            if keyS = ("workflow") ∨ keyS = ("done") then
              objSet st.data keyS (Value.vList [])
            else if keyS = ("commands") ∨ keyS = ("approvals") ∨ keyS = ("targets") then
              objSet st.data keyS (Value.vObj [])
            else st.data
          { st with data := data, sectionKey := some keyS }
        else
          { st with data := objSet st.data keyS (parseScalar ⟨value⟩), sectionKey := none }
    else if (st.sectionKey = some ("workflow") ∨ st.sectionKey = some ("done")) &&
        line.take 2 = ('-' :: (' ' :: [])) then
      match st.sectionKey with
      | some sec => { st with data := pushItem st.data sec (parseScalar ⟨line.drop 2⟩) }
      | none => st
    else if st.sectionKey = some ("commands") then
      match matchKeyValue line with
      | some (k, rest) =>
        let cmds :=
          match objGet st.data ("commands") with
          | some (Value.vObj fields) => fields
          | _ => []
        let data := objSet st.data ("commands")
          (Value.vObj (objSet cmds ⟨k⟩ (parseScalar ⟨trimL rest⟩)))
        { st with data := data }
      | none => st
    else if st.sectionKey = some ("approvals") then
      if line.take 5 = ("mode:").data then
        let appr :=
          match objGet st.data ("approvals") with
          | some (Value.vObj fields) => fields
          | _ => []
        let data := objSet st.data ("approvals")
          (Value.vObj (objSet appr ("mode") (parseScalar ⟨trimL (line.drop 5)⟩)))
        { st with data := data }
      else if line = ("notes:").data then
        let appr :=
          match objGet st.data ("approvals") with
          | some (Value.vObj fields) => fields
          | _ => []
        let appr :=
          match objGet appr ("notes") with
          | some (Value.vList _) => appr
          | _ => objSet appr ("notes") (Value.vList [])
        { st with data := objSet st.data ("approvals") (Value.vObj appr),
                  nested := some ("notes") }
      else if st.nested = some ("notes") && line.take 2 = ('-' :: (' ' :: [])) then
        let appr :=
          match objGet st.data ("approvals") with
          | some (Value.vObj fields) => fields
          | _ => []
        let appr := pushItem appr ("notes") (parseScalar ⟨line.drop 2⟩)
        { st with data := objSet st.data ("approvals") (Value.vObj appr) }
      else st
    else if st.sectionKey = some ("targets") then
      if indent = 2 then
        match matchKeyValue line with
        | none => st
        | some (key, rest) =>
          let keyS : String := ⟨key⟩
          let maybeValue := trimL rest
          let tgts :=
            match objGet st.data ("targets") with
            | some (Value.vObj fields) => fields
            | _ => []
          let entry :=
            if maybeValue = [] then Value.vObj []
            else Value.vObj [(("path"), parseScalar ⟨maybeValue⟩), (("enabled"), Value.vBool true)]
          let data := objSet st.data ("targets") (Value.vObj (objSet tgts keyS entry))
          { st with data := data, currentTarget := some keyS }
      else if 4 ≤ indent then
        match st.currentTarget with
        | none => st
        | some ct =>
          match matchKeyValue line with
          | none => st
          | some (k, rest) =>
            let tgts :=
              match objGet st.data ("targets") with
              | some (Value.vObj fields) => fields
              | _ => []
            let entry :=
              match objGet tgts ct with
              | some (Value.vObj fields) => fields
              | _ => []
            let entry := objSet entry ⟨k⟩ (parseScalar ⟨trimL rest⟩)
            let data := objSet st.data ("targets") (Value.vObj (objSet tgts ct (Value.vObj entry)))
            { st with data := data }
      else st
    else st

/-- `parseRulesText` from `src/index.js`: blank input yields `{}`, then a
whole-text `JSON.parse` attempt, then the line-oriented YAML fallback
scanner. -/
def parseRulesText (text : String) : Value :=
  if trimL text.data = [] then Value.vObj []
  else
    match jsonParse text with
    | some v => v
    | none =>
      let lines := splitNlL (replaceCrlfL text.data)
      let st := lines.foldl processLine
        { data := [], sectionKey := none, nested := none, currentTarget := none }
      Value.vObj st.data

/-- A normalized target configuration. -/
structure TargetCfg where
  enabled : Bool
  path : String
deriving DecidableEq

/-- The normalized `approvals` object. -/
structure Approvals where
  mode : String
  notes : List String
deriving DecidableEq

/-- A fully-populated rules document, the output shape of `normalizeRules`
and `createDefaultRules` (`commands` is the association list the code builds,
in insertion order). -/
structure Doc where
  version : Int
  mission : String
  workflow : List String
  commands : List (String × String)
  done : List String
  approvals : Approvals
  targets : List (String × TargetCfg)
deriving DecidableEq

/-- String-to-string association lookup (`obj[key]`). -/
def lookupStr (l : List (String × String)) (k : String) : Option String :=
  match l with
  | [] => none
  | (k', v) :: rest => if k' = k then some v else lookupStr rest k

/-- Target association lookup (`rules.targets[id]`). -/
def lookupTgt (l : List (String × TargetCfg)) (k : String) : Option TargetCfg :=
  match l with
  | [] => none
  | (k', v) :: rest => if k' = k then some v else lookupTgt rest k

/-- `formatList` from `src/adapters/common.js` (the input is always an array
in this typed model, so only emptiness is checked). -/
def formatList (items : List String) : String :=
  if items = [] then ("- (none)")
  else String.intercalate ("\n") (items.map (fun item => "- " ++ item))

/-- `formatCommands` from `src/adapters/common.js`: `lint`/`test`/`build`
first when present, then the remaining keys in insertion order. -/
def formatCommands (commands : List (String × String)) : String :=
  let preferredOrder : List String := [("lint"), ("test"), ("build")]
  let keys := commands.map Prod.fst
  let names := preferredOrder.filter (fun n => keys.contains n) ++
    keys.filter (fun n => !(preferredOrder.contains n))
  if names = [] then ("- (none)")
  else
    String.intercalate ("\n")
      (names.map (fun n => "- " ++ n ++ ": `" ++ ((lookupStr commands n).getD ("")) ++ "`"))

/-- `renderManagedRulesBody` from `src/adapters/common.js`. -/
def renderManagedRulesBody (rules : Doc) : String :=
  String.intercalate ("\n")
    ([("## rules-doctor Managed Rules"),
      ("Generated from `.agentrules/rules.yaml`. Edit that file, then run `rules-doctor sync`."),
      (""),
      ("### Mission"), rules.mission, (""),
      ("### Workflow"), formatList rules.workflow, (""),
      ("### Commands"), formatCommands rules.commands, (""),
      ("### Done"), formatList rules.done, (""),
      ("### Approvals"),
      ("- Policy: `" ++ rules.approvals.mode ++ "`")] ++
      rules.approvals.notes.map (fun note => "- " ++ note) ++ [("")])

/-- An output adapter record (`src/adapters/*.js`): identifier, default
output path, management mode (`"full"` or `"marker"`), sentinel pair for
marker-managed adapters, and the pure render function. -/
structure Adapter where
  id : String
  adapterName : String
  description : String
  defaultPath : String
  management : String
  markerBegin : String
  markerEnd : String
  render : Doc → String

/-- `src/adapters/claude.js`. -/
def claudeAdapter : Adapter where
  id := ("claude")
  adapterName := ("Claude Code")
  description := ("Generate CLAUDE.md from rules.yaml.")
  defaultPath := ("CLAUDE.md")
  management := ("full")
  markerBegin := ("")
  markerEnd := ("")
  render := fun rules =>
    String.intercalate ("\n")
      ([("# CLAUDE.md"), (""),
        ("## Mission"), rules.mission, (""),
        ("## Workflow"), formatList rules.workflow, (""),
        ("## Commands"), formatCommands rules.commands, (""),
        ("## Done"), formatList rules.done, (""),
        ("## Approvals"),
        ("- Mode: `" ++ rules.approvals.mode ++ "`")] ++
        rules.approvals.notes.map (fun note => "- " ++ note) ++ [("")])

/-- `src/adapters/codex.js`. -/
def codexAdapter : Adapter where
  id := ("codex")
  adapterName := ("Codex CLI")
  description := ("Manage AGENTS.md via marker-managed section.")
  defaultPath := ("AGENTS.md")
  management := ("marker")
  markerBegin := ("<!-- RULES_DOCTOR:BEGIN -->")
  markerEnd := ("<!-- RULES_DOCTOR:END -->")
  render := renderManagedRulesBody

/-- `src/adapters/copilot.js`. -/
def copilotAdapter : Adapter where
  id := ("copilot")
  adapterName := ("GitHub Copilot")
  description :=
    ("Manage .github/copilot-instructions.md via marker-managed section to preserve user content.")
  defaultPath := (".github/copilot-instructions.md")
  management := ("marker")
  markerBegin := ("<!-- RULES_DOCTOR:COPILOT:BEGIN -->")
  markerEnd := ("<!-- RULES_DOCTOR:COPILOT:END -->")
  render := fun rules =>
    String.intercalate ("\n") [("# Copilot Instructions"), (""), renderManagedRulesBody rules]

/-- `src/adapters/cursor.js`. -/
def cursorAdapter : Adapter where
  id := ("cursor")
  adapterName := ("Cursor")
  description := ("Manage .cursor/rules/rules-doctor.mdc as an always-applied project rule.")
  defaultPath := (".cursor/rules/rules-doctor.mdc")
  management := ("full")
  markerBegin := ("")
  markerEnd := ("")
  render := fun rules =>
    String.intercalate ("\n")
      [("---"), ("description: rules-doctor managed coding rules"), ("alwaysApply: true"),
        ("---"), (""), renderManagedRulesBody rules]

/-- `src/adapters/gemini.js`. -/
def geminiAdapter : Adapter where
  id := ("gemini")
  adapterName := ("Gemini CLI")
  description := ("Generate GEMINI.md managed instruction file.")
  defaultPath := ("GEMINI.md")
  management := ("full")
  markerBegin := ("")
  markerEnd := ("")
  render := fun rules =>
    String.intercalate ("\n") [("# GEMINI.md"), (""), renderManagedRulesBody rules]

/-- `src/adapters/opencode.js`. -/
def opencodeAdapter : Adapter where
  id := ("opencode")
  adapterName := ("OpenCode CLI")
  description := ("Manage AGENTS.md via marker-managed section (OpenCode rules).")
  defaultPath := ("AGENTS.md")
  management := ("marker")
  markerBegin := ("<!-- RULES_DOCTOR:BEGIN -->")
  markerEnd := ("<!-- RULES_DOCTOR:END -->")
  render := renderManagedRulesBody

/-- The adapter registry `ADAPTERS` from `src/adapters/index.js`. -/
def ADAPTERS : List Adapter :=
  [claudeAdapter, codexAdapter, copilotAdapter, cursorAdapter, geminiAdapter, opencodeAdapter]

/-- `ADAPTERS_BY_ID[id]`. -/
def adapterById (targetId : String) : Option Adapter :=
  ADAPTERS.find? (fun adapter => adapter.id = targetId)

/-- `inferCommandFromScripts` from `src/index.js`: `npm run <name>` when the
package manifest declares the script, otherwise a TODO placeholder. -/
def inferCommandFromScripts (scripts : List (String × Value)) (scriptName : String) : String :=
  match objGet scripts scriptName with
  | some (Value.vStr _) => "npm run " ++ scriptName
  | _ => "echo \"TODO: define " ++ scriptName ++ " command\""

/-- `createDefaultRules` from `src/index.js`. -/
def createDefaultRules (scripts : List (String × Value)) : Doc where
  version := 2
  mission := ("Ship safe changes quickly while keeping agent instructions consistent.")
  workflow :=
    [("Read relevant files before editing."),
      ("Make the smallest correct change."),
      ("Run verification commands before finalizing.")]
  commands :=
    [(("lint"), inferCommandFromScripts scripts ("lint")),
      (("test"), inferCommandFromScripts scripts ("test")),
      (("build"), inferCommandFromScripts scripts ("build"))]
  done :=
    [("Commands pass or blockers are documented."),
      ("Changed behavior is reflected in docs where needed.")]
  approvals :=
    { mode := ("ask-before-destructive"),
      notes := [("Ask before destructive actions or privileged operations.")] }
  targets := ADAPTERS.map (fun adapter => (adapter.id, ⟨true, adapter.defaultPath⟩))

/-- `normalizeTargetConfig` from `src/index.js`, on a raw parsed value:
a non-blank string is a path with `enabled: true`; a non-object falls back
entirely; an object contributes a boolean `enabled` and a non-blank string
`path`. -/
def normalizeTargetConfig (source : Option Value) (fallbackPath : String) : TargetCfg :=
  match source with
  | some (Value.vStr s) =>
    if trimL s.data ≠ [] then ⟨true, jsTrim s⟩ else ⟨true, fallbackPath⟩
  | some (Value.vObj fields) =>
    let enabled :=
      match objGet fields ("enabled") with
      | some (Value.vBool b) => b
      | _ => true
    let path :=
      match objGet fields ("path") with
      | some (Value.vStr s) => if trimL s.data ≠ [] then jsTrim s else fallbackPath
      | _ => fallbackPath
    ⟨enabled, path⟩
  | _ => ⟨true, fallbackPath⟩

/-- `normalizeTargetConfig` applied to an already-normalized target record
(as `stringifyRules` does): the object branch of the same function. -/
def normalizeTargetCfgT (source : Option TargetCfg) (fallbackPath : String) : TargetCfg :=
  match source with
  | none => ⟨true, fallbackPath⟩
  | some c => ⟨c.enabled, if trimL c.path.data ≠ [] then jsTrim c.path else fallbackPath⟩

/-- `id.toUpperCase()` (ASCII). -/
def toUpperS (s : String) : String := ⟨s.data.map Char.toUpper⟩

/-- Keep the string elements of an array (`.filter((item) => typeof item === "string")`). -/
def filterStrings (items : List Value) : List String :=
  items.filterMap (fun v => match v with | Value.vStr s => some s | _ => none)

/-- Read an object-valued field as its association list; anything else is the
empty object (`source.commands && typeof source.commands === "object" ? ... : {}`;
a non-object has no readable string fields, so the empty list is faithful). -/
def objFields (v : Option Value) : List (String × Value) :=
  match v with
  | some (Value.vObj fields) => fields
  | _ => []

/-- `normalizeRules` from `src/index.js` (the 1022–1077 variant): merge a
parsed tree with defaults into a fully-populated document.  The output
`commands` object is literally `{lint, test, build}`. -/
def normalizeRules (input : Value) (defaults : Doc) : Doc :=
  let source := match input with | Value.vObj fields => fields | _ => []
  let commands := objFields (objGet source ("commands"))
  let approvals := objFields (objGet source ("approvals"))
  let sourceTargets := objFields (objGet source ("targets"))
  let workflow :=
    match objGet source ("workflow") with
    | some (Value.vList items) => filterStrings items
    | _ => defaults.workflow
  let done :=
    match objGet source ("done") with
    | some (Value.vList items) => filterStrings items
    | _ => defaults.done
  let notes :=
    match objGet approvals ("notes") with
    | some (Value.vList items) => filterStrings items
    | _ => defaults.approvals.notes
  let knownTargets := ADAPTERS.map (fun adapter =>
    let fallback :=
      match lookupTgt defaults.targets adapter.id with
      | some cfg => cfg.path
      | none => adapter.defaultPath
    let config := normalizeTargetConfig (objGet sourceTargets adapter.id) fallback
    (adapter.id, config))
  let customTargets := (sourceTargets.map Prod.fst).filterMap (fun customId =>
    if (knownTargets.map Prod.fst).contains customId then none
    else some (customId,
      normalizeTargetConfig (objGet sourceTargets customId) (toUpperS customId ++ ".md")))
  { version :=
      match objGet source ("version") with
      | some (Value.vInt n) => n
      | _ => defaults.version,
    mission :=
      match objGet source ("mission") with
      | some (Value.vStr s) => if trimL s.data ≠ [] then s else defaults.mission
      | _ => defaults.mission,
    workflow := if workflow.length > 0 then workflow else defaults.workflow,
    commands :=
      [(("lint"),
        match objGet commands ("lint") with
        | some (Value.vStr s) => s
        | _ => (lookupStr defaults.commands ("lint")).getD ("")),
       (("test"),
        match objGet commands ("test") with
        | some (Value.vStr s) => s
        | _ => (lookupStr defaults.commands ("test")).getD ("")),
       (("build"),
        match objGet commands ("build") with
        | some (Value.vStr s) => s
        | _ => (lookupStr defaults.commands ("build")).getD (""))],
    done := if done.length > 0 then done else defaults.done,
    approvals :=
      { mode :=
          match objGet approvals ("mode") with
          | some (Value.vStr s) => s
          | _ => defaults.approvals.mode,
        notes := notes },
    targets := knownTargets ++ customTargets }

/-- One lowercase hexadecimal digit. -/
def hexDigit (n : Nat) : Char :=
  if n < 10 then Char.ofNat ('0'.toNat + n) else Char.ofNat ('a'.toNat + (n - 10))

/-- One character of `JSON.stringify` string output. -/
def jsonEscChar (c : Char) : List Char :=
  if c = '"' then [bsl, '"']
  else if c = bsl then [bsl, bsl]
  else if c = '\x08' then [bsl, 'b']
  else if c = '\t' then [bsl, 't']
  else if c = '\n' then [bsl, 'n']
  else if c = '\x0c' then [bsl, 'f']
  else if c = '\r' then [bsl, 'r']
  else if c.val < 32 then
    [bsl, 'u', '0', '0', hexDigit (c.toNat / 16), hexDigit (c.toNat % 16)]
  else [c]

/-- `JSON.stringify(s)` for a string: quote and escape. -/
def jsonStringify (s : String) : String :=
  ⟨'"' :: (s.data.map jsonEscChar).flatten ++ ['"']⟩

/-- `quoteYaml` from `src/index.js` on a string value:
`JSON.stringify(String(value))`. -/
def quoteYamlStr (s : String) : String := jsonStringify s

/-- Decimal representation of a natural number onto an accumulator. -/
def natReprAuxF : Nat → Nat → List Char → List Char
  | 0, n, acc => hexDigit n :: acc
  | fuel+1, n, acc =>
    if n < 10 then hexDigit n :: acc
    else natReprAuxF fuel (n / 10) (hexDigit (n % 10) :: acc)

/-- Decimal digits of `n` onto `acc` (the fuel argument only pays for the
division-by-ten recursion and never runs out when it starts at `n`). -/
def natReprAux (n : Nat) (acc : List Char) : List Char := natReprAuxF n n acc

/-- JS `String(n)` for an integer. -/
def intRepr (n : Int) : String :=
  if n < 0 then ⟨'-' :: natReprAux n.natAbs []⟩ else ⟨natReprAux n.natAbs []⟩

/-- `quoteYaml` on a number (`String(value)`). -/
def quoteYamlInt (n : Int) : String := intRepr n

/-- `quoteYaml` on a boolean (`String(value)`). -/
def quoteYamlBool (b : Bool) : String := if b then ("true") else ("false")

/-- The line list built by `stringifyRules` from `src/index.js`: canonical
key order, quoted scalars, known target ids first (in registry order) and
custom target ids sorted. -/
def stringifyLines (rules : Doc) : List String :=
  let knownTargetIds := ADAPTERS.map (fun adapter => adapter.id)
  let targetKeys := rules.targets.map Prod.fst
  let allTargetIds :=
    knownTargetIds.filter (fun id => targetKeys.contains id) ++
      (targetKeys.filter (fun id => !(knownTargetIds.contains id))).insertionSort
        (fun a b => a ≤ b)
  [("version: " ++ quoteYamlInt rules.version),
   ("mission: " ++ quoteYamlStr rules.mission),
   ("workflow:")] ++
  rules.workflow.map (fun step => "  - " ++ quoteYamlStr step) ++
  [("commands:")] ++
  rules.commands.map (fun pair => "  " ++ pair.1 ++ ": " ++ quoteYamlStr pair.2) ++
  [("done:")] ++
  rules.done.map (fun item => "  - " ++ quoteYamlStr item) ++
  [("approvals:"),
   ("  mode: " ++ quoteYamlStr rules.approvals.mode),
   ("  notes:")] ++
  rules.approvals.notes.map (fun note => "    - " ++ quoteYamlStr note) ++
  [("targets:")] ++
  (allTargetIds.map (fun id =>
    let config := normalizeTargetCfgT (lookupTgt rules.targets id) (toUpperS id ++ ".md")
    [("  " ++ id ++ ":"),
     ("    enabled: " ++ quoteYamlBool config.enabled),
     ("    path: " ++ quoteYamlStr config.path)])).flatten ++
  [("")]

/-- `stringifyRules` from `src/index.js`: the line list joined with `\n`.
(`Number.isFinite(rules.version)` always holds for the integer versions of
this model.) -/
def stringifyRules (rules : Doc) : String :=
  ⟨joinNlL ((stringifyLines rules).map String.data)⟩

/-- `hay.indexOf(needle, start)`: the smallest index `i ≥ start` where
`needle` occurs, `none` for no occurrence (`-1` in JS). -/
def indexOfFromL (needle hay : List Char) (start : Nat) : Option Nat :=
  (List.range (hay.length + 1)).find?
    (fun i => decide (start ≤ i) && needle.isPrefixOf (hay.drop i))

/-- `hay.indexOf(needle)`. -/
def indexOfL (needle hay : List Char) : Option Nat := indexOfFromL needle hay 0

/-- `hay.includes(needle)`. -/
def containsSub (hay needle : String) : Bool := (indexOfL needle.data hay.data).isSome

/-- A run of `run` pending newlines, emitted with runs of three or more
collapsed to two. -/
def emitRun (run : Nat) : List Char :=
  if 3 ≤ run then ['\n', '\n'] else List.replicate run '\n'

/-- Scanner for `text.replace(/\n{3,}/g, "\n\n")`, carrying the length of the
current pending newline run. -/
def collapseAux : List Char → Nat → List Char
  | [], run => emitRun run
  | c :: rest, run =>
    if c = '\n' then collapseAux rest (run + 1)
    else emitRun run ++ c :: collapseAux rest 0

/-- `text.replace(/\n{3,}/g, "\n\n")`: every maximal run of three or more
newlines becomes exactly two. -/
def collapseRuns (l : List Char) : List Char := collapseAux l 0

/-- `upsertManagedSection` from `src/index.js`: splice the trimmed content
between the first begin sentinel and the first end sentinel found at or after
it (collapsing long newline runs), or else append a fresh block after the
trimmed existing text. -/
def upsertManagedSection (existing content beginMarker endMarker : String) : String :=
  let e := existing.data
  let freshBlock : List Char :=
    let base := trimEndL e
    (if base = [] then [] else base ++ ['\n', '\n']) ++
      beginMarker.data ++ '\n' :: (trimL content.data ++ '\n' :: (endMarker.data ++ ['\n']))
  match indexOfL beginMarker.data e with
  | none => ⟨freshBlock⟩
  | some start =>
    match indexOfFromL endMarker.data e start with
    | none => ⟨freshBlock⟩
    | some endIdx =>
      if start < endIdx then
        let before := e.take (start + beginMarker.data.length)
        let after := e.drop endIdx
        ⟨collapseRuns (before ++ '\n' :: (trimL content.data ++ '\n' :: after))⟩
      else ⟨freshBlock⟩

/-- `isAbsolute` from `node:path` (POSIX). -/
def isAbsoluteP (p : String) : Bool := p.data.head? = some '/'

/-- Resolve `.` and `..` segments (a `..` at the root is dropped, as
`path.resolve` does for absolute paths). -/
def normalizeSegs (segs : List (List Char)) : List (List Char) :=
  segs.foldl
    (fun acc seg =>
      if seg = [] ∨ seg = ['.'] then acc
      else if seg = ('.' :: ('.' :: [])) then acc.dropLast
      else acc ++ [seg])
    []

/-- Join path segments with `/`. -/
def joinSegs : List (List Char) → List Char
  | [] => []
  | [s] => s
  | s :: rest => s ++ '/' :: joinSegs rest

/-- `resolve(rootDir, filePath)` from `node:path` (POSIX), for an absolute
`rootDir`: absolute inputs are normalized on their own, relative inputs are
joined to the root and normalized. -/
def pathResolve (rootDir filePath : String) : String :=
  let joined :=
    if isAbsoluteP filePath then filePath.data
    else rootDir.data ++ '/' :: filePath.data
  ⟨'/' :: joinSegs (normalizeSegs (splitOnCharL '/' joined))⟩

/-- `resolveInRoot` from `src/index.js` (lines 1137–1142): an absolute path
is returned unchanged, anything else resolves against the project root.
No rejection of any kind happens here. -/
def resolveInRoot (rootDir filePath : String) : String :=
  if isAbsoluteP filePath then filePath else pathResolve rootDir filePath

/-- `dirname` from `node:path` (POSIX) on an already-normalized absolute
path. -/
def dirnameP (p : String) : String :=
  ⟨'/' :: joinSegs (((splitOnCharL '/' p.data).filter (· ≠ [])).dropLast)⟩

/-- A filesystem entry: a regular file with its text content, or a
directory. -/
inductive FsEntry where
  | file (content : String)
  | dir
deriving DecidableEq

/-- The filesystem as an association list from absolute path to entry.
Directory creation (`mkdirSync`) is not tracked: it never changes any file
content, and directory existence only matters where an `FsEntry.dir` is
placed in the initial state. -/
abbrev Fs := List (String × FsEntry)

/-- Decidable equality for thrown-or-returned outcomes. -/
instance {e a : Type} [DecidableEq e] [DecidableEq a] : DecidableEq (Except e a) :=
  fun x y =>
    match x, y with
    | .error u, .error v =>
      if h : u = v then .isTrue (by rw [h]) else .isFalse (fun hh => h (Except.error.inj hh))
    | .ok u, .ok v =>
      if h : u = v then .isTrue (by rw [h]) else .isFalse (fun hh => h (Except.ok.inj hh))
    | .error _, .ok _ => .isFalse (fun hh => Except.noConfusion hh)
    | .ok _, .error _ => .isFalse (fun hh => Except.noConfusion hh)

/-- `existsSync(p)`. -/
def fsGet (fs : Fs) (p : String) : Option FsEntry :=
  match fs with
  | [] => none
  | (p', e) :: rest => if p' = p then some e else fsGet rest p

/-- `existsSync(p)`. -/
def existsS (fs : Fs) (p : String) : Bool := (fsGet fs p).isSome

/-- `readFileSync(p, "utf8")`; reading a missing file or a directory (which
throws in JS, and is always guarded by `existsSync` in the source) yields
`none`. -/
def readFileS (fs : Fs) (p : String) : Option String :=
  match fsGet fs p with
  | some (FsEntry.file content) => some content
  | _ => none

/-- `writeFileSync(p, content, "utf8")`: replace in place or append. -/
def writeFileS (fs : Fs) (p : String) (content : String) : Fs :=
  match fs with
  | [] => [(p, FsEntry.file content)]
  | (p', e) :: rest =>
    if p' = p then (p, FsEntry.file content) :: rest
    else (p', e) :: writeFileS rest p content

/-- `RULES_RELATIVE_PATH`. -/
def RULES_RELATIVE_PATH : String := (".agentrules/rules.yaml")

/-- `IMPORT_REPORT_RELATIVE_PATH`. -/
def IMPORT_REPORT_RELATIVE_PATH : String := (".agentrules/import-report.md")

/-- `readJsonFile` from `src/index.js`: `null` (here `none`) for a missing
file or unparseable JSON. -/
def readJsonFile (fs : Fs) (filePath : String) : Option Value :=
  if !(existsS fs filePath) then none
  else
    match readFileS fs filePath with
    | none => none
    | some content => jsonParse content

/-- `loadPackageScripts` from `src/index.js`. -/
def loadPackageScripts (rootDir : String) (fs : Fs) : List (String × Value) :=
  match readJsonFile fs (pathResolve rootDir ("package.json")) with
  | some (Value.vObj pkg) =>
    match objGet pkg ("scripts") with
    | some (Value.vObj scripts) => scripts
    | _ => []
  | _ => []

/-- The record returned by `loadRules`. -/
structure LoadedRules where
  rules : Doc
  rulesFile : String
  rulesExists : Bool
deriving DecidableEq

/-- `loadRules` from `src/index.js` (lines 1188–1209): resolve the rules
file, compute defaults from the package manifest, fail when the file is
missing (unless `allowMissing`), otherwise parse and normalize.  No
validation of the parsed tree happens anywhere on this path. -/
def loadRules (rootDir : String) (allowMissing : Bool) (fs : Fs) :
    Except String LoadedRules :=
  let rulesFile := pathResolve rootDir RULES_RELATIVE_PATH
  let defaults := createDefaultRules (loadPackageScripts rootDir fs)
  if !(existsS fs rulesFile) then
    if allowMissing then .ok ⟨defaults, rulesFile, false⟩
    else .error ("Missing " ++ rulesFile ++ ". Run \"rules-doctor init\" to create it first.")
  else
    .ok ⟨normalizeRules (parseRulesText ((readFileS fs rulesFile).getD (""))) defaults,
      rulesFile, true⟩

/-- `getTargetsFromSpec` from `src/index.js`: `all`, or a comma-separated,
deduplicated list of known target ids. -/
def getTargetsFromSpec (spec : String) : Except String (List String) :=
  if spec = ("all") then .ok (ADAPTERS.map (fun adapter => adapter.id))
  else
    let step := fun (acc : Except String (List String)) (raw : String) =>
      match acc with
      | .error e => .error e
      | .ok unique =>
        let id := jsTrim raw
        if id = ("") then .ok unique
        else
          match adapterById id with
          | none =>
            .error ("Unknown target \"" ++ id ++ "\". Use one of: all, " ++
              String.intercalate (", ") (ADAPTERS.map (fun adapter => adapter.id)))
          | some _ => if unique.contains id then .ok unique else .ok (unique ++ [id])
    match ((splitOnCharL ',' spec.data).map (fun l => (⟨l⟩ : String))).foldl step (.ok []) with
    | .error e => .error e
    | .ok unique =>
      if unique = [] then .error ("No targets selected.") else .ok unique

/-- Options collected by `parseTargetedArgs`. -/
structure TargetedOpts where
  targetSpec : String
  diff : Bool
  write : Bool
  backup : Bool
deriving DecidableEq

/-- The argument loop of `parseTargetedArgs` (`--target` consumes the next
argument; a missing or empty value is an error, as `!value` is true for
both). -/
def parseTargetedArgsAux (commandName : String) (allowWrite allowBackup : Bool) :
    List String → TargetedOpts → Except String TargetedOpts
  | [], options => .ok options
  | arg :: rest, options =>
    if arg = ("--target") then
      match rest with
      | [] => .error ("Missing value for --target (" ++ commandName ++ ")")
      | value :: rest' =>
        if value = ("") then .error ("Missing value for --target (" ++ commandName ++ ")")
        else parseTargetedArgsAux commandName allowWrite allowBackup rest'
          { options with targetSpec := value }
    else if arg = ("--diff") then
      parseTargetedArgsAux commandName allowWrite allowBackup rest { options with diff := true }
    else if arg = ("--write") && allowWrite then
      parseTargetedArgsAux commandName allowWrite allowBackup rest { options with write := true }
    else if arg = ("--backup") && allowBackup then
      parseTargetedArgsAux commandName allowWrite allowBackup rest { options with backup := true }
    else .error ("Unknown option for " ++ commandName ++ ": " ++ arg)

/-- The result of `parseTargetedArgs`. -/
structure TargetedArgs where
  targetIds : List String
  diff : Bool
  write : Bool
  backup : Bool
deriving DecidableEq

/-- `parseTargetedArgs` from `src/index.js`. -/
def parseTargetedArgs (commandName : String) (args : List String)
    (allowWrite allowBackup : Bool) : Except String TargetedArgs :=
  match parseTargetedArgsAux commandName allowWrite allowBackup args
      { targetSpec := ("all"), diff := false, write := false, backup := false } with
  | .error e => .error e
  | .ok options =>
    if options.backup && !options.write then .error ("--backup requires --write.")
    else
      match getTargetsFromSpec options.targetSpec with
      | .error e => .error e
      | .ok targetIds =>
        .ok ⟨targetIds, options.diff, options.write, options.backup⟩

/-- A per-target sync plan (`buildTargetPlans` result entries; the `adapter`
field of the source record is omitted — no later consumer reads it). -/
structure Plan where
  targetId : String
  enabled : Bool
  targetPath : String
  targetPathDisplay : String
  fileExists : Bool
  currentText : String
  desiredText : String
  changed : Bool
deriving DecidableEq

/-- `getTargetConfig` from `src/index.js`. -/
def getTargetConfig (rules : Doc) (adapter : Adapter) : TargetCfg :=
  normalizeTargetCfgT (lookupTgt rules.targets adapter.id) adapter.defaultPath

/-- `buildTargetPlans` from `src/index.js` (lines 1688–1733): resolve each
selected target's path, read the current content, render and merge the
desired content.  Target ids are validated by the argument parser before
this point, so the registry lookup always succeeds on reachable inputs. -/
def buildTargetPlans (rootDir : String) (rules : Doc) (targetIds : List String)
    (fs : Fs) : List Plan :=
  targetIds.filterMap (fun targetId =>
    match adapterById targetId with
    | none => none
    | some adapter =>
      let target := getTargetConfig rules adapter
      let targetPath := resolveInRoot rootDir target.path
      let fileExists := existsS fs targetPath
      let currentText := if fileExists then (readFileS fs targetPath).getD ("") else ("")
      if !target.enabled then
        some { targetId := targetId, enabled := false, targetPath := targetPath,
               targetPathDisplay := target.path, fileExists := fileExists,
               currentText := currentText, desiredText := currentText, changed := false }
      else
        let rendered := jsTrim (adapter.render rules)
        let desiredText :=
          if adapter.management = ("marker") then
            upsertManagedSection currentText rendered adapter.markerBegin adapter.markerEnd
          else rendered ++ ("\n")
        some { targetId := targetId, enabled := true, targetPath := targetPath,
               targetPathDisplay := target.path, fileExists := fileExists,
               currentText := currentText, desiredText := desiredText,
               changed := decide (desiredText ≠ currentText) })

/-- A deduplication note from `getUniqueWritePlans`. -/
structure DupNote where
  targetPathDisplay : String
  winner : String
  duplicate : String
deriving DecidableEq

/-- Lookup in the `byPath` map of `getUniqueWritePlans`. -/
def plansLookup (byPath : List (String × Plan)) (k : String) : Option Plan :=
  match byPath with
  | [] => none
  | (k', p) :: rest => if k' = k then some p else plansLookup rest k

/-- The loop of `getUniqueWritePlans` over the remaining plans, carrying the
insertion-ordered `byPath` map and the duplicate notes. -/
def getUniqueWritePlansAux : List Plan → List (String × Plan) → List DupNote →
    Except String (List (String × Plan) × List DupNote)
  | [], byPath, duplicates => .ok (byPath, duplicates)
  | plan :: rest, byPath, duplicates =>
    if !plan.enabled || !plan.changed then getUniqueWritePlansAux rest byPath duplicates
    else
      match plansLookup byPath plan.targetPath with
      | none => getUniqueWritePlansAux rest (byPath ++ [(plan.targetPath, plan)]) duplicates
      | some existing =>
        if existing.desiredText ≠ plan.desiredText then
          .error ("Conflicting outputs for " ++ plan.targetPathDisplay ++ ": " ++
            existing.targetId ++ " and " ++ plan.targetId ++ " produce different content.")
        else
          getUniqueWritePlansAux rest byPath
            (duplicates ++ [⟨plan.targetPathDisplay, existing.targetId, plan.targetId⟩])

/-- `getUniqueWritePlans` from `src/index.js` (lines 1781–1813): group the
enabled, changed plans by resolved path; identical desired text deduplicates
to the first plan, differing desired text raises a conflict. -/
def getUniqueWritePlans (plans : List Plan) : Except String (List Plan × List DupNote) :=
  match getUniqueWritePlansAux plans [] [] with
  | .error e => .error e
  | .ok (byPath, duplicates) => .ok (byPath.map Prod.snd, duplicates)

/-- `formatPlanSummary` from `src/index.js`. -/
structure PlanSummary where
  changed : Nat
  changedFiles : Nat
  enabled : Nat
  disabled : Nat
deriving DecidableEq

/-- `formatPlanSummary` from `src/index.js` (`changedFiles` is the number of
distinct resolved paths among the changed plans). -/
def formatPlanSummary (plans : List Plan) : PlanSummary :=
  let changedPlans := plans.filter (fun plan => plan.changed)
  let enabled := (plans.filter (fun plan => plan.enabled)).length
  { changed := changedPlans.length,
    changedFiles := ((changedPlans.map (fun plan => plan.targetPath)).dedup).length,
    enabled := enabled,
    disabled := plans.length - enabled }

/-- The write loop of `syncCommand` in write mode: optional backup of the
prior content to a timestamped sibling, then the write itself. -/
def applyWrites (backup : Bool) (timestamp : String) (uniquePlans : List Plan)
    (fs : Fs) : Fs :=
  uniquePlans.foldl
    (fun acc plan =>
      let acc :=
        if backup && plan.fileExists then
          writeFileS acc (plan.targetPath ++ (".rules-doctor.bak.") ++ timestamp)
            plan.currentText
        else acc
      writeFileS acc plan.targetPath plan.desiredText)
    fs

/-- `syncCommand` from `src/index.js` (lines 1815–1883): parse options, load
rules, build plans; dry-run stops after reporting, write mode runs the
pre-flight `getUniqueWritePlans` check and then writes the deduplicated
plans.  The wall-clock backup timestamp is a parameter.  The returned pair
is the command's thrown-or-returned outcome together with the filesystem
after the command. -/
def syncCommand (rootDir timestamp : String) (args : List String) (fs : Fs) :
    Except String Nat × Fs :=
  match parseTargetedArgs ("sync") args true true with
  | .error e => (.error e, fs)
  | .ok options =>
    match loadRules rootDir false fs with
    | .error e => (.error e, fs)
    | .ok loaded =>
      let plans := buildTargetPlans rootDir loaded.rules options.targetIds fs
      if !options.write then (.ok 0, fs)
      else
        match getUniqueWritePlans plans with
        | .error e => (.error e, fs)
        | .ok (uniquePlans, _) => (.ok 0, applyWrites options.backup timestamp uniquePlans fs)

/-- `checkCommand` from `src/index.js`: plans are computed and reported;
exit code 1 when any selected target drifts.  Never writes. -/
def checkCommand (rootDir : String) (args : List String) (fs : Fs) :
    Except String Nat × Fs :=
  match parseTargetedArgs ("check") args false false with
  | .error e => (.error e, fs)
  | .ok options =>
    match loadRules rootDir false fs with
    | .error e => (.error e, fs)
    | .ok loaded =>
      let plans := buildTargetPlans rootDir loaded.rules options.targetIds fs
      let summary := formatPlanSummary plans
      if summary.changed = 0 then (.ok 0, fs) else (.ok 1, fs)

/-- A regex word character (`\w`). -/
def isWordChar (c : Char) : Bool := c.isAlpha || c.isDigit || c = '_'

/-- Lowercase a character list. -/
def lowerL (l : List Char) : List Char := l.map Char.toLower

/-- JS `String(n)` for a natural number. -/
def natRepr (n : Nat) : String := ⟨natReprAux n []⟩

/-- Case-insensitive containment of any of the given lowercase phrases. -/
def containsAnyCI (text : String) (phrases : List String) : Bool :=
  phrases.any (fun phrase => (indexOfL phrase.data (lowerL text.data)).isSome)

/-- A word boundary (`\b`) before position `i`, where the character at `i`
is a word character. -/
def boundaryBefore (t : List Char) (i : Nat) : Bool :=
  match i with
  | 0 => true
  | j + 1 =>
    match (t.drop j).head? with
    | some c => !isWordChar c
    | none => false

/-- A word boundary (`\b`) after a word ending right before `rest`. -/
def boundaryAfter (rest : List Char) : Bool :=
  match rest.head? with
  | some c => !isWordChar c
  | none => true

/-- `hasVerifyCommand` from `src/index.js`:
`/\b(npm run|pnpm|yarn|bun)\s+(lint|test|build)\b/i.test(text)`. -/
def hasVerifyCommand (text : String) : Bool :=
  let t := lowerL text.data
  (List.range (t.length + 1)).any (fun i =>
    boundaryBefore t i &&
    ([("npm run"), ("pnpm"), ("yarn"), ("bun")] : List String).any (fun kw =>
      kw.data.isPrefixOf (t.drop i) &&
      (let rest := (t.drop i).drop kw.data.length
       let wsLen := (rest.takeWhile isWsChar).length
       let rest' := rest.dropWhile isWsChar
       decide (0 < wsLen) &&
       ([("lint"), ("test"), ("build")] : List String).any (fun w =>
         w.data.isPrefixOf rest' && boundaryAfter (rest'.drop w.data.length)))))

/-- `hasNoApprovalLanguage` from `src/index.js` (an alternation of literal
phrases, with the optional `for ` expanded). -/
def hasNoApprovalLanguage (text : String) : Bool :=
  containsAnyCI text
    [("never ask for approval"), ("never ask approval"), ("no approvals"),
      ("without approval"), ("do not ask for approval")]

/-- `hasAskApprovalLanguage` from `src/index.js`. -/
def hasAskApprovalLanguage (text : String) : Bool :=
  containsAnyCI text
    [("ask for approval"), ("request approval"), ("require approval"), ("needs approval")]

/-- `hasRequireTestsLanguage` from `src/index.js`. -/
def hasRequireTestsLanguage (text : String) : Bool :=
  containsAnyCI text [("must run tests"), ("always run tests"), ("run tests before done")]

/-- `hasSkipTestsLanguage` from `src/index.js`. -/
def hasSkipTestsLanguage (text : String) : Bool :=
  containsAnyCI text [("skip tests"), ("tests optional"), ("do not run tests")]

/-- `parseAnalyzeArgs` from `src/index.js`. -/
def parseAnalyzeArgs (args : List String) : Except String Bool :=
  args.foldl
    (fun acc arg =>
      match acc with
      | .error e => .error e
      | .ok _ =>
        if arg = ("--strict") then .ok true
        else .error ("Unknown option for analyze: " ++ arg))
    (.ok false)

/-- `parseDoctorArgs` from `src/index.js`. -/
def parseDoctorArgs (args : List String) : Except String Bool :=
  args.foldl
    (fun acc arg =>
      match acc with
      | .error e => .error e
      | .ok _ =>
        if arg = ("--strict") then .ok true
        else .error ("Unknown option for doctor: " ++ arg))
    (.ok false)

/-- One row of the analyze loop: adapter, resolved config, file existence
and content. -/
def analyzeRows (rootDir : String) (rules : Doc) (fs : Fs) :
    List (Adapter × TargetCfg × Bool × String) :=
  ADAPTERS.map (fun adapter =>
    let target := getTargetConfig rules adapter
    let absolutePath := resolveInRoot rootDir target.path
    let fileExists := existsS fs absolutePath
    let content := if fileExists then (readFileS fs absolutePath).getD ("") else ("")
    (adapter, target, fileExists, content))

/-- The per-target issues collected by `analyzeCommand`, in loop order. -/
def analyzeTargetIssues (rows : List (Adapter × TargetCfg × Bool × String)) :
    List String :=
  rows.flatMap (fun row =>
    let (adapter, target, fileExists, content) := row
    if !target.enabled then []
    else if !fileExists then
      [adapter.id ++ (": expected file is missing (") ++ target.path ++ (").")]
    else
      (if adapter.management = ("marker") &&
          !(containsSub content adapter.markerBegin && containsSub content adapter.markerEnd)
        then [adapter.id ++ (": marker block is missing.")] else []) ++
      (if !hasVerifyCommand content then
        [adapter.id ++ (": verify commands (lint/test/build) not detected.")] else []))

/-- The snapshots from which `analyzeCommand` derives its contradiction
checks (enabled targets whose files exist). -/
def analyzeSnapshots (rows : List (Adapter × TargetCfg × Bool × String)) :
    List (String × String) :=
  rows.filterMap (fun row =>
    let (adapter, target, fileExists, content) := row
    if target.enabled && fileExists then some (adapter.id, content) else none)

/-- The contradiction issues of `analyzeCommand`. -/
def analyzeContradictions (snapshots : List (String × String)) : List String :=
  let askApproval := (snapshots.filter (fun s => hasAskApprovalLanguage s.2)).map Prod.fst
  let noApproval := (snapshots.filter (fun s => hasNoApprovalLanguage s.2)).map Prod.fst
  let requireTests := (snapshots.filter (fun s => hasRequireTestsLanguage s.2)).map Prod.fst
  let skipTests := (snapshots.filter (fun s => hasSkipTestsLanguage s.2)).map Prod.fst
  (if askApproval ≠ [] ∧ noApproval ≠ [] then
    [("Potential contradiction: approval guidance differs (") ++
      String.intercalate (", ") askApproval ++ (" vs ") ++
      String.intercalate (", ") noApproval ++ (").")]
   else []) ++
  (if requireTests ≠ [] ∧ skipTests ≠ [] then
    [("Potential contradiction: test guidance differs (") ++
      String.intercalate (", ") requireTests ++ (" vs ") ++
      String.intercalate (", ") skipTests ++ (").")]
   else [])

/-- `analyzeCommand` from `src/index.js`: report issues; in strict mode a
non-empty issue list is thrown. -/
def analyzeCommand (rootDir : String) (args : List String) (fs : Fs) :
    Except String Nat × Fs :=
  match parseAnalyzeArgs args with
  | .error e => (.error e, fs)
  | .ok strict =>
    match loadRules rootDir true fs with
    | .error e => (.error e, fs)
    | .ok loaded =>
      let rows := analyzeRows rootDir loaded.rules fs
      let issues := analyzeTargetIssues rows ++ analyzeContradictions (analyzeSnapshots rows)
      if issues = [] then (.ok 0, fs)
      else if strict then
        (.error ("Analyze failed in strict mode with " ++ natRepr issues.length ++ (" issue(s).")), fs)
      else (.ok 0, fs)

/-- Group accumulation for `doctorCommand`'s `pathToTargets` map (insertion
order of first occurrence, appending ids). -/
def groupAdd (groups : List (String × List String)) (k id : String) :
    List (String × List String) :=
  match groups with
  | [] => [(k, [id])]
  | (k', ids) :: rest =>
    if k' = k then (k, ids ++ [id]) :: rest else (k', ids) :: groupAdd rest k id

/-- `doctorCommand` from `src/index.js`: flag distinct enabled targets
mapping to the same resolved file; exit code 1 only in strict mode. -/
def doctorCommand (rootDir : String) (args : List String) (fs : Fs) :
    Except String Nat × Fs :=
  match parseDoctorArgs args with
  | .error e => (.error e, fs)
  | .ok strict =>
    match loadRules rootDir true fs with
    | .error e => (.error e, fs)
    | .ok loaded =>
      let groups := ADAPTERS.foldl
        (fun groups adapter =>
          let target := getTargetConfig loaded.rules adapter
          if !target.enabled then groups
          else groupAdd groups (resolveInRoot rootDir target.path) adapter.id)
        []
      let issues := groups.filterMap (fun group =>
        if 1 < group.2.length then
          some (("Multiple enabled targets map to the same file: ") ++
            String.intercalate (", ") group.2 ++ (" -> ") ++ group.1)
        else none)
      if issues = [] then (.ok 0, fs)
      else if strict then (.ok 1, fs)
      else (.ok 0, fs)

/-- `PRESET_NAMES`. -/
def PRESET_NAMES : List String := [("all"), ("core"), ("copilot")]

/-- `getPresetTargetIds` from `src/index.js`. -/
def getPresetTargetIds (presetName : String) : Except String (List String) :=
  if presetName = ("all") then .ok (ADAPTERS.map (fun adapter => adapter.id))
  else if presetName = ("core") then
    .ok [("claude"), ("codex"), ("opencode"), ("cursor"), ("gemini")]
  else if presetName = ("copilot") then .ok [("copilot")]
  else
    .error ("Unknown preset \"" ++ presetName ++ "\". Use one of: " ++
      String.intercalate (", ") PRESET_NAMES)

/-- Target association assignment in place (JS object field assignment). -/
def tgtSet (l : List (String × TargetCfg)) (k : String) (v : TargetCfg) :
    List (String × TargetCfg) :=
  match l with
  | [] => [(k, v)]
  | (k', v') :: rest =>
    if k' = k then (k, v) :: rest else (k', v') :: tgtSet rest k v

/-- `applyTargetPreset` from `src/index.js`: every known adapter's target
entry is enabled exactly when the preset selects it, keeping its configured
path. -/
def applyTargetPreset (rules : Doc) (presetName : String) : Except String Doc :=
  match getPresetTargetIds presetName with
  | .error e => .error e
  | .ok enabledIds =>
    let targets := ADAPTERS.foldl
      (fun targets adapter =>
        let current := normalizeTargetCfgT (lookupTgt targets adapter.id) adapter.defaultPath
        tgtSet targets adapter.id ⟨enabledIds.contains adapter.id, current.path⟩)
      rules.targets
    .ok { rules with targets := targets }

/-- Options of `parseInitArgs`. -/
structure InitOpts where
  importExisting : Bool
  preset : String
deriving DecidableEq

/-- `parseInitArgs` from `src/index.js` (`--preset` consumes the next
argument; a missing or empty value is an error). -/
def parseInitArgsAux : List String → InitOpts → Except String InitOpts
  | [], options => .ok options
  | arg :: rest, options =>
    if arg = ("--import") then parseInitArgsAux rest { options with importExisting := true }
    else if arg = ("--preset") then
      match rest with
      | [] => .error ("Missing value for --preset.")
      | value :: rest' =>
        if value = ("") then .error ("Missing value for --preset.")
        else if !(PRESET_NAMES.contains value) then
          .error ("Unknown preset \"" ++ value ++ "\". Use one of: " ++
            String.intercalate (", ") PRESET_NAMES)
        else parseInitArgsAux rest' { options with preset := value }
    else .error ("Unknown option for init: " ++ arg)

/-- `parseInitArgs` from `src/index.js`. -/
def parseInitArgs (args : List String) : Except String InitOpts :=
  parseInitArgsAux args { importExisting := false, preset := ("all") }

/-- A lowercase letter or digit (the complement of `/[^a-z0-9]+/` after
lowercasing). -/
def isLowerAlnum (c : Char) : Bool := ('a' ≤ c && c ≤ 'z') || c.isDigit

/-- Scanner for `replace(/[^a-z0-9]+/g, " ")`: each maximal run of other
characters becomes one space. -/
def headingSquashAux : List Char → Bool → List Char
  | [], _ => []
  | c :: rest, inRun =>
    if isLowerAlnum c then c :: headingSquashAux rest false
    else if inRun then headingSquashAux rest true
    else ' ' :: headingSquashAux rest true

/-- `normalizeHeading` from `src/index.js`. -/
def normalizeHeading (value : String) : String :=
  jsTrim ⟨headingSquashAux (lowerL value.data) false⟩

/-- Heading match `/^#{1,6}\s+(.+?)\s*$/`: one to six hashes, at least one
whitespace character, then the trimmed heading text (non-empty). -/
def matchHeading (line : List Char) : Option (List Char) :=
  let hashes := line.takeWhile (· = '#')
  let rest := line.dropWhile (· = '#')
  if hashes.length = 0 ∨ 6 < hashes.length then none
  else
    let ws := rest.takeWhile isWsChar
    let content := trimEndL (rest.dropWhile isWsChar)
    if ws = [] ∨ content = [] then none else some content

/-- Add a section if its normalized heading is not present yet
(`if (!sections[normalized])`; a present-but-empty value also re-assigns,
matching the JS falsiness check). -/
def sectionsAdd (sections : List (String × String)) (k v : String) :
    List (String × String) :=
  match lookupStr sections k with
  | some existing => if existing = ("") then objStrSet sections k v else sections
  | none => sections ++ [(k, v)]
where
  /-- Association assignment for string maps. -/
  objStrSet (l : List (String × String)) (k : String) (v : String) :
      List (String × String) :=
    match l with
    | [] => [(k, v)]
    | (k', v') :: rest =>
      if k' = k then (k, v) :: rest else (k', v') :: objStrSet rest k v

/-- `parseMarkdownSections` from `src/index.js`: heading-delimited sections,
first occurrence of a normalized heading wins. -/
def parseMarkdownSections (text : String) : List (String × String) :=
  let lines := splitNlL (replaceCrlfL text.data)
  let flush := fun (sections : List (String × String)) (currentHeading : Option (List Char))
      (currentLines : List (List Char)) =>
    match currentHeading with
    | none => sections
    | some h =>
      sectionsAdd sections (normalizeHeading ⟨h⟩) (jsTrim ⟨joinNlL currentLines⟩)
  let final := lines.foldl
    (fun state line =>
      let (sections, currentHeading, currentLines) := state
      match matchHeading line with
      | some heading => (flush sections currentHeading currentLines, some heading, [])
      | none =>
        match currentHeading with
        | some _ => (sections, currentHeading, currentLines ++ [line])
        | none => (sections, currentHeading, currentLines))
    (([] : List (String × String)), (none : Option (List Char)), ([] : List (List Char)))
  flush final.1 final.2.1 final.2.2

/-- `pickFirstNonEmptyLine` from `src/index.js`. -/
def pickFirstNonEmptyLine (text : String) : String :=
  match (splitNlL text.data).find? (fun line => trimL line ≠ []) with
  | some line => ⟨trimL line⟩
  | none => ("")

/-- List-item match `/^\s*[-*]\s+(.+?)\s*$/` (bullet) or
`/^\s*\d+\.\s+(.+?)\s*$/` (numbered), returning the trimmed item. -/
def matchListItem (line : List Char) : Option String :=
  let l := trimStartL line
  let bullet :=
    match l with
    | c :: rest =>
      if c = '-' ∨ c = '*' then
        let ws := rest.takeWhile isWsChar
        let content := trimEndL (rest.dropWhile isWsChar)
        if ws = [] ∨ content = [] then none else some (⟨content⟩ : String)
      else none
    | [] => none
  match bullet with
  | some item => some item
  | none =>
    let digits := l.takeWhile Char.isDigit
    match l.dropWhile Char.isDigit with
    | '.' :: rest =>
      if digits = [] then none
      else
        let ws := rest.takeWhile isWsChar
        let content := trimEndL (rest.dropWhile isWsChar)
        if ws = [] ∨ content = [] then none else some (⟨content⟩ : String)
    | _ => none

/-- `parseListItems` from `src/index.js`. -/
def parseListItems (text : String) : List String :=
  (splitNlL text.data).filterMap matchListItem

/-- `unquoteValue` from `src/index.js`: trim, strip a backtick pair, strip
quotes, trim again. -/
def unquoteValue (value : String) : String :=
  let current := trimL value.data
  let current :=
    if current.head? = some '`' && current.getLast? = some '`' then
      (current.drop 1).dropLast
    else current
  jsTrim (stripQuotes ⟨current⟩)

/-- Case-insensitive prefix test. -/
def isPrefixCI (needle : String) (hay : List Char) : Bool :=
  (lowerL needle.data).isPrefixOf (lowerL hay)

/-- The per-line match `^(?:[-*]\s*)?<name>\s*:\s*(.+)$` (case-insensitive)
from `importCommandsFromText`. -/
def matchDirectCommand (name : String) (line : List Char) : Option String :=
  let l :=
    match line with
    | c :: rest => if c = '-' ∨ c = '*' then rest.dropWhile isWsChar else line
    | [] => line
  if isPrefixCI name l then
    let l := l.drop name.data.length
    match (l.dropWhile isWsChar) with
    | ':' :: rest =>
      let capture := rest.dropWhile isWsChar
      if capture = [] then none else some ⟨capture⟩
    | _ => none
  else none

/-- The search `text.match(/\b(?:npm run|pnpm|yarn|bun)\s+<name>\b/i)` from
`importCommandsFromText`, returning the matched slice of the original
text. -/
def findVerifyFor (text : String) (name : String) : Option String :=
  let orig := text.data
  let t := lowerL orig
  (List.range (t.length + 1)).findSome? (fun i =>
    if boundaryBefore t i then
      ([("npm run"), ("pnpm"), ("yarn"), ("bun")] : List String).findSome? (fun kw =>
        if kw.data.isPrefixOf (t.drop i) then
          let rest := (t.drop i).drop kw.data.length
          let wsLen := (rest.takeWhile isWsChar).length
          let rest' := rest.dropWhile isWsChar
          if 0 < wsLen ∧ (lowerL name.data).isPrefixOf rest' ∧
              boundaryAfter (rest'.drop name.data.length) then
            some (⟨(orig.drop i).take (kw.data.length + wsLen + name.data.length)⟩ : String)
          else none
        else none)
    else none)

/-- String association assignment in place. -/
def strSet (l : List (String × String)) (k v : String) : List (String × String) :=
  match l with
  | [] => [(k, v)]
  | (k', v') :: rest =>
    if k' = k then (k, v) :: rest else (k', v') :: strSet rest k v

/-- `importCommandsFromText` from `src/index.js`: direct `name: value` lines
(optionally bulleted) override, then a package-runner search fills commands
that are still placeholders. -/
def importCommandsFromText (text : String) (commands : List (String × String)) :
    List (String × String) :=
  let commandNames := commands.map Prod.fst
  let lines := splitNlL (replaceCrlfL text.data)
  let merged := lines.foldl
    (fun merged raw =>
      let line := trimL raw
      commandNames.foldl
        (fun merged name =>
          match matchDirectCommand name line with
          | some captured => strSet merged name (unquoteValue captured)
          | none => merged)
        merged)
    commands
  commandNames.foldl
    (fun merged name =>
      let value := (lookupStr merged name).getD ("")
      if value = ("") ∨ containsSub value ("TODO") then
        match findVerifyFor text name with
        | some found => strSet merged name found
        | none => merged
      else merged)
    merged

/-- `getSectionText` from `src/index.js`. -/
def getSectionText (sections : List (String × String)) (aliases : List String) : String :=
  match aliases.findSome? (fun heading =>
      match lookupStr sections (normalizeHeading heading) with
      | some value => if trimL value.data ≠ [] then some (jsTrim value) else none
      | none => none) with
  | some value => value
  | none => ("")

/-- `collectImportSources` from `src/index.js`: the fixed candidate files
that exist, deduplicated by path, each with its text. -/
def collectImportSources (rootDir : String) (fs : Fs) : List (String × String) :=
  let candidates : List String :=
    [("CLAUDE.md"), (".claude/CLAUDE.md"), ("AGENTS.md"),
      (".github/copilot-instructions.md"), ("GEMINI.md"), (".cursor/rules/rules-doctor.mdc")]
  (candidates.foldl
    (fun state path =>
      let (seen, sources) := state
      if seen.contains path then state
      else
        let seen := seen ++ [path]
        let absolutePath := resolveInRoot rootDir path
        if existsS fs absolutePath then
          (seen, sources ++ [(path, (readFileS fs absolutePath).getD (""))])
        else (seen, sources))
    (([] : List String), ([] : List (String × String)))).2

/-- The per-source merge step of `importRulesFromDocs`. -/
def importFromSource (imported : Doc) (text : String) : Doc :=
  let sections := parseMarkdownSections text
  let imported :=
    let missionSection := getSectionText sections [("mission")]
    if missionSection ≠ ("") then
      let mission := pickFirstNonEmptyLine missionSection
      if mission ≠ ("") then { imported with mission := mission } else imported
    else imported
  let imported :=
    let workflow := parseListItems (getSectionText sections [("workflow"), ("operational loop")])
    if workflow ≠ [] then { imported with workflow := workflow } else imported
  let imported :=
    let done := parseListItems (getSectionText sections [("done"), ("done criteria")])
    if done ≠ [] then { imported with done := done } else imported
  let imported :=
    let approvalsSection := getSectionText sections [("approvals"), ("approval")]
    if approvalsSection ≠ ("") then
      let imported :=
        match findApprovalMode approvalsSection with
        | some mode => { imported with approvals := { imported.approvals with mode := mode } }
        | none => imported
      let approvalNotes := parseListItems approvalsSection
      if approvalNotes ≠ [] then
        { imported with approvals := { imported.approvals with notes := approvalNotes } }
      else imported
    else imported
  { imported with commands := importCommandsFromText text imported.commands }
where
  /-- The search `/(?:mode|policy)\s*:\s*`?([a-z0-9_-]+)`?/i`, returning the
  trimmed capture. -/
  findApprovalMode (text : String) : Option String :=
    let orig := text.data
    let t := lowerL orig
    (List.range (t.length + 1)).findSome? (fun i =>
      ([("mode"), ("policy")] : List String).findSome? (fun kw =>
        if kw.data.isPrefixOf (t.drop i) then
          let rest := (orig.drop i).drop kw.data.length
          match rest.dropWhile isWsChar with
          | ':' :: rest' =>
            let rest'' := rest'.dropWhile isWsChar
            let rest'' := if rest''.head? = some '`' then rest''.drop 1 else rest''
            let capture := rest''.takeWhile isKeyChar
            if capture = [] then none else some (jsTrim ⟨capture⟩)
          | _ => none
        else none))

/-- `importRulesFromDocs` from `src/index.js`: merge recognizable sections
of the existing instruction files into a copy of the defaults, enable every
adapter whose target file exists, and produce the report text. -/
def importRulesFromDocs (rootDir : String) (defaults : Doc) (fs : Fs) : Doc × String :=
  let sources := collectImportSources rootDir fs
  if sources = [] then
    (defaults, ("No existing docs were found. Created default rules."))
  else
    let notes := [("Found " ++ natRepr sources.length ++ " source file(s):")] ++
      sources.map (fun source => "- " ++ source.1)
    let imported := sources.foldl (fun imported source => importFromSource imported source.2)
      defaults
    let imported :=
      { imported with
        targets := ADAPTERS.foldl
          (fun targets adapter =>
            let config := getTargetConfig { imported with targets := targets } adapter
            if existsS fs (resolveInRoot rootDir config.path) then
              match lookupTgt targets adapter.id with
              | some entry => tgtSet targets adapter.id { entry with enabled := true }
              | none => targets
            else targets)
          imported.targets }
    let notes := notes ++ [("Imported mission/workflow/commands/done/approvals where detected.")]
    (imported, String.intercalate ("\n") notes)

/-- `initCommand` from `src/index.js`: create the rules file (optionally
importing existing docs and applying a preset) unless it already exists;
with `--import`, also write the import report. -/
def initCommand (rootDir : String) (args : List String) (fs : Fs) :
    Except String Nat × Fs :=
  match parseInitArgs args with
  | .error e => (.error e, fs)
  | .ok options =>
    let rulesFile := pathResolve rootDir RULES_RELATIVE_PATH
    if existsS fs rulesFile then (.ok 0, fs)
    else
      let defaults := createDefaultRules (loadPackageScripts rootDir fs)
      let (rules, importReport) :=
        if options.importExisting then importRulesFromDocs rootDir defaults fs
        else (defaults, (""))
      match applyTargetPreset rules options.preset with
      | .error e => (.error e, fs)
      | .ok rules =>
        let fs := writeFileS fs rulesFile (stringifyRules rules)
        if options.importExisting then
          let reportPath := pathResolve rootDir IMPORT_REPORT_RELATIVE_PATH
          let reportContent :=
            if options.preset = ("all") then importReport ++ ("\n")
            else importReport ++ ("\n\nApplied target preset: ") ++ options.preset ++ ("\n")
          (.ok 0, writeFileS fs reportPath reportContent)
        else (.ok 0, fs)

/-- Options of `parsePresetArgs`. -/
structure PresetOpts where
  presetName : String
  diff : Bool
  write : Bool
deriving DecidableEq

/-- `parsePresetArgs` from `src/index.js`. -/
def parsePresetArgs (args : List String) : Except String PresetOpts :=
  match args with
  | [] =>
    .error ("Missing preset subcommand. Use \"rules-doctor preset apply <" ++
      String.intercalate ("|") PRESET_NAMES ++ ">\".")
  | subcommand :: rest =>
    if subcommand ≠ ("apply") then
      .error ("Unknown preset subcommand: " ++ subcommand ++
        (". Use \"rules-doctor preset apply <preset>\"."))
    else
      match rest with
      | [] => .error ("Missing preset name. Use one of: " ++ String.intercalate (", ") PRESET_NAMES)
      | presetName :: rest' =>
        if presetName = ("") then
          .error ("Missing preset name. Use one of: " ++ String.intercalate (", ") PRESET_NAMES)
        else if !(PRESET_NAMES.contains presetName) then
          .error ("Unknown preset \"" ++ presetName ++ "\". Use one of: " ++
            String.intercalate (", ") PRESET_NAMES)
        else
          rest'.foldl
            (fun acc arg =>
              match acc with
              | .error e => .error e
              | .ok options =>
                if arg = ("--diff") then .ok { options with diff := true }
                else if arg = ("--write") then .ok { options with write := true }
                else .error ("Unknown option for preset apply: " ++ arg))
            (.ok { presetName := presetName, diff := false, write := false })

/-- `presetApplyCommand` from `src/index.js`: recompute the rules file text
under the preset; write it only with `--write` and only when it changed. -/
def presetApplyCommand (rootDir : String) (args : List String) (fs : Fs) :
    Except String Nat × Fs :=
  match parsePresetArgs args with
  | .error e => (.error e, fs)
  | .ok options =>
    match loadRules rootDir false fs with
    | .error e => (.error e, fs)
    | .ok loaded =>
      match applyTargetPreset loaded.rules options.presetName with
      | .error e => (.error e, fs)
      | .ok nextRules =>
        let currentText := stringifyRules loaded.rules
        let nextText := stringifyRules nextRules
        if currentText = nextText then (.ok 0, fs)
        else if !options.write then (.ok 0, fs)
        else (.ok 0, writeFileS fs loaded.rulesFile nextText)

/-- `usage` from `src/index.js`. -/
def usage : String :=
  let targets := String.intercalate ("|") (ADAPTERS.map (fun adapter => adapter.id))
  let presets := String.intercalate ("|") PRESET_NAMES
  String.intercalate ("\n")
    [("rules-doctor"), (""), ("Usage:"),
      ("  rules-doctor init [--import] [--preset " ++ presets ++ "]"),
      ("  rules-doctor preset apply <" ++ presets ++ "> [--diff] [--write]"),
      ("  rules-doctor sync [--target all|" ++ targets ++
        "|<comma-separated-targets>] [--diff] [--write] [--backup]"),
      ("  rules-doctor check [--target all|" ++ targets ++
        "|<comma-separated-targets>] [--diff]"),
      ("  rules-doctor analyze [--strict]"),
      ("  rules-doctor doctor [--strict]"),
      ("  rules-doctor targets list"),
      (""), ("Notes:"),
      ("  - sync defaults to dry-run. Add --write to apply changes.")]

/-- The outcome of one `runCli` invocation: exit code, resulting filesystem,
and the lines written to standard error (the catch handler is the only
writer). -/
structure CliResult where
  exitCode : Nat
  fs : Fs
  errLines : List String
deriving DecidableEq

/-- The command dispatch inside `runCli`'s `try` block: the thrown-or-
returned outcome of the selected command together with the filesystem it
leaves behind.  (`targets list` and the help paths only log.) -/
def dispatchCommand (rootDir timestamp : String) (args : List String) (fs : Fs) :
    Except String Nat × Fs :=
  match args with
  | [] => (.ok 0, fs)
  | command :: rest =>
    if command = ("") ∨ command = ("--help") ∨ command = ("-h") then (.ok 0, fs)
    else if command = ("init") then initCommand rootDir rest fs
    else if command = ("preset") then presetApplyCommand rootDir rest fs
    else if command = ("sync") then syncCommand rootDir timestamp rest fs
    else if command = ("check") then checkCommand rootDir rest fs
    else if command = ("analyze") then analyzeCommand rootDir rest fs
    else if command = ("doctor") then doctorCommand rootDir rest fs
    else if command = ("targets") then
      if rest = [("list")] then (.ok 0, fs)
      else (.error ("Unknown targets command. Use \"rules-doctor targets list\"."), fs)
    else (.error ("Unknown command: " ++ command ++ ("\n\n") ++ usage), fs)

/-- `runCli` from `src/index.js` (lines 2078–2130): dispatch the command
inside a try/catch; a thrown error becomes an `Error: `-prefixed stderr line
and exit code 1, a normal return becomes the command's own exit code.
(Project-root discovery and the wall clock are parameters; the logger is
modeled as the collected stderr lines.) -/
def runCli (rootDir timestamp : String) (args : List String) (fs : Fs) : CliResult :=
  match dispatchCommand rootDir timestamp args fs with
  | (.ok n, fs') => ⟨n, fs', []⟩
  | (.error e, fs') => ⟨1, fs', [("Error: " ++ e)]⟩

/-! ## Observation helpers used by the theorems -/

/-- Field lookup on an object value. -/
def vObjGet (v : Value) (k : String) : Option Value :=
  match v with
  | Value.vObj fields => objGet fields k
  | _ => none

/-- Whether an optional value is an integer. -/
def isIntValue (v : Option Value) : Bool :=
  match v with
  | some (Value.vInt _) => true
  | _ => false

/-- Whether an optional value is the given string. -/
def strValueIs (v : Option Value) (s : String) : Bool :=
  match v with
  | some (Value.vStr t) => t = s
  | _ => false

/-- The number of (possibly overlapping) occurrence positions of `needle`
in `hay`. -/
def countSub (hay needle : String) : Nat :=
  ((List.range (hay.data.length + 1)).filter
    (fun i => needle.data.isPrefixOf (hay.data.drop i))).length

/-- A single quote as a string. -/
def sqS : String := ⟨[sq]⟩

/-- A backslash as a string. -/
def bslS : String := ⟨[bsl]⟩

/-- The version of an `Except`-wrapped `loadRules` result. -/
def loadedVersion (r : Except String LoadedRules) : Option Int :=
  match r with
  | .ok loaded => some loaded.rules.version
  | .error _ => none

/-- The first enabled, changed plan resolving to `targetPath`. -/
def firstPlanFor (plans : List Plan) (targetPath : String) : Option Plan :=
  plans.find? (fun p => p.enabled && p.changed && p.targetPath == targetPath)

/-- A rules file whose `claude` target escapes the project root. -/
def c1rulesText : String := ("targets:\n  claude:\n    path: \"../claude.md\"\n")

/-- Filesystem with only that rules file. -/
def c1fs : Fs :=
  [(("/w/proj/.agentrules/rules.yaml"), FsEntry.file c1rulesText)]

/-- A rules file mapping the `claude` target onto `AGENTS.md` (the `codex`
target's default path). -/
def c2rulesText : String :=
  ("version: 2\nmission: \"m\"\nworkflow:\n  - \"w\"\ncommands:\n  lint: \"l\"\n") ++
  ("  test: \"t\"\n  build: \"b\"\ndone:\n  - \"d\"\napprovals:\n  mode: \"a\"\n") ++
  ("  notes:\n    - \"n\"\ntargets:\n  claude:\n    path: \"AGENTS.md\"\n")

/-- The document loaded from that rules file (empty package manifest). -/
def c2doc : Doc := normalizeRules (parseRulesText c2rulesText) (createDefaultRules [])

/-- `AGENTS.md` content that already equals the `claude` adapter's desired
full-file output, so the `claude` plan is unchanged. -/
def c2agents : String := jsTrim (claudeAdapter.render c2doc) ++ ("\n")

/-- Filesystem for the conflict counterexample: one plan unchanged, one
changed, same resolved path, different desired texts. -/
def c2fs : Fs :=
  [(("/p/.agentrules/rules.yaml"), FsEntry.file c2rulesText),
   (("/p/AGENTS.md"), FsEntry.file c2agents)]

/-- The same rules file without a pre-existing `AGENTS.md` (both colliding
plans changed). -/
def c2fsB : Fs := [(("/p/.agentrules/rules.yaml"), FsEntry.file c2rulesText)]

/-- The two plans of the counterexample: both enabled, same resolved path,
differing desired texts, the first unchanged and the second changed. -/
def c2shape (plans : List Plan) : Bool :=
  match plans with
  | [p, q] =>
    p.enabled && q.enabled && p.targetPath == q.targetPath &&
      !(p.desiredText == q.desiredText) && !p.changed && q.changed
  | _ => false

/-- A default plan record (used only to extract concrete plans from computed
lists in witness statements). -/
def defaultPlan : Plan :=
  { targetId := (""), enabled := false, targetPath := (""), targetPathDisplay := (""),
    fileExists := false, currentText := (""), desiredText := (""), changed := false }

/-- The plans of the conflict scenario: `claude` and `codex` both enabled and
changed on `/p/AGENTS.md` with differing desired texts. -/
def c2conflictPlans : List Plan :=
  buildTargetPlans ("/p") c2doc [("claude"), ("codex")] c2fsB

/-- The plans of the shared-output scenario: `codex` and `opencode` produce
identical desired text for `/p/AGENTS.md`. -/
def c2sharedPlans : List Plan :=
  buildTargetPlans ("/p") c2doc [("codex"), ("opencode")] c2fsB

/-- The shared desired text of the shared-output scenario. -/
def c2sharedDesired : String := (c2sharedPlans.headD defaultPlan).desiredText

/-- A parsed tree carrying a custom command key next to `lint`. -/
def c6tree : Value :=
  Value.vObj
    [(("commands"), Value.vObj
      [(("test:e2e"), Value.vStr ("pnpm test:e2e")),
       (("lint"), Value.vStr ("pnpm lint"))])]

/-- The document text of the parsing example: an inline comment after the
version and a single-quoted scalar with a doubled quote. -/
def c8input : String :=
  ("version: 2 # note\nmission: ") ++ sqS ++ ("It") ++ sqS ++ sqS ++ ("s ok") ++ sqS

/-- A rules file whose version is the string `"two"`. -/
def c9fs : Fs :=
  [(("/p/.agentrules/rules.yaml"), FsEntry.file ("version: \"two\"\nmission: \"m\"\n"))]

/-- C1: path resolution performs no safety rejection.  `resolveInRoot`
resolves `"../claude.md"` to a path outside the project root and returns
absolute paths unchanged (a plain relative path does resolve to root/path),
and a write-mode sync configured with the escaping path exits 0 and writes
the file outside the root — where the claim demands a fail-closed path-safety
error with no read or write at such a path. -/
theorem c1_resolveInRoot_performs_no_rejection :
    resolveInRoot ("/w/proj") ("../claude.md") = ("/w/claude.md") ∧
    ("/w/proj/").data.isPrefixOf ("/w/claude.md").data = false ∧
    resolveInRoot ("/w/proj") ("/tmp/claude.md") = ("/tmp/claude.md") ∧
    resolveInRoot ("/w/proj") ("docs/x.md") = ("/w/proj/docs/x.md") ∧
    (runCli ("/w/proj") ("T") [("sync"), ("--target"), ("claude"), ("--write")] c1fs).exitCode
      = 0 ∧
    existsS (runCli ("/w/proj") ("T")
      [("sync"), ("--target"), ("claude"), ("--write")] c1fs).fs ("/w/claude.md") = true := by
  decide

/-- C3: one merge pass over a host with a begin sentinel and no end sentinel
appends a fresh block after the trimmed host text instead of stripping the
stray sentinel: the result keeps the residual `old`, contains two begin
sentinels, and differs from the text the claim requires. -/
theorem c3_upsert_repair_leaves_residual :
    upsertManagedSection ("<!--BEGIN-->\nold\n") ("new") ("<!--BEGIN-->") ("<!--END-->") =
      ("<!--BEGIN-->\nold\n\n<!--BEGIN-->\nnew\n<!--END-->\n") ∧
    countSub ("<!--BEGIN-->\nold\n\n<!--BEGIN-->\nnew\n<!--END-->\n") ("<!--BEGIN-->") = 2 ∧
    countSub ("<!--BEGIN-->\nold\n\n<!--BEGIN-->\nnew\n<!--END-->\n") ("<!--END-->") = 1 ∧
    containsSub ("<!--BEGIN-->\nold\n\n<!--BEGIN-->\nnew\n<!--END-->\n") ("old") = true ∧
    upsertManagedSection ("<!--BEGIN-->\nold\n") ("new") ("<!--BEGIN-->") ("<!--END-->") ≠
      ("<!--BEGIN-->\nnew\n<!--END-->\n") := by
  decide

/-- C4: the marker merge is not idempotent.  On the host `"<!--BEGIN-->\nold\n"`
with content `"new"`, the first pass appends a fresh block after the stray
begin sentinel, and the second pass splices between the stray begin sentinel
and the appended end sentinel, producing a different (smaller) text. -/
theorem c4_upsert_not_idempotent :
    upsertManagedSection ("<!--BEGIN-->\nold\n") ("new") ("<!--BEGIN-->") ("<!--END-->") =
      ("<!--BEGIN-->\nold\n\n<!--BEGIN-->\nnew\n<!--END-->\n") ∧
    upsertManagedSection
        (upsertManagedSection ("<!--BEGIN-->\nold\n") ("new") ("<!--BEGIN-->") ("<!--END-->"))
        ("new") ("<!--BEGIN-->") ("<!--END-->") =
      ("<!--BEGIN-->\nnew\n<!--END-->\n") ∧
    upsertManagedSection
        (upsertManagedSection ("<!--BEGIN-->\nold\n") ("new") ("<!--BEGIN-->") ("<!--END-->"))
        ("new") ("<!--BEGIN-->") ("<!--END-->") ≠
      upsertManagedSection ("<!--BEGIN-->\nold\n") ("new") ("<!--BEGIN-->") ("<!--END-->") := by
  decide

/-- C6: `normalizeRules` discards custom command keys: a parsed tree whose
commands carry `test:e2e` next to `lint` normalizes to a commands mapping
holding exactly `lint`, `test` and `build`, with no `test:e2e` entry. -/
theorem c6_normalize_drops_custom_command :
    (normalizeRules c6tree (createDefaultRules [])).commands =
      [(("lint"), ("pnpm lint")),
       (("test"), ("echo \"TODO: define test command\"")),
       (("build"), ("echo \"TODO: define build command\""))] ∧
    lookupStr (normalizeRules c6tree (createDefaultRules [])).commands ("test:e2e") = none := by
  decide

/-- C8: parsing `version: 2 # note\nmission: 'It''s ok'` yields the string
`"2 # note"` for `version` (no inline-comment stripping before scalar
coercion, so the value is not numeric) and the string `"It''s ok"` for
`mission` (the doubled single quote is kept verbatim, not read as one
literal quote). -/
theorem c8_parse_keeps_comment_and_doubled_quote :
    strValueIs (vObjGet (parseRulesText c8input) ("version")) ("2 # note") = true ∧
    isIntValue (vObjGet (parseRulesText c8input) ("version")) = false ∧
    strValueIs (vObjGet (parseRulesText c8input) ("mission"))
      (("It") ++ sqS ++ sqS ++ ("s ok")) = true ∧
    strValueIs (vObjGet (parseRulesText c8input) ("mission"))
      (("It") ++ sqS ++ ("s ok")) = false := by
  decide

/-- C9: a rules file whose version is the string `"two"` loads without any
error: the version is silently replaced by the default `2`, and both `sync`
and `check` run to completion with nothing on standard error (`check` exits
1 only because of ordinary drift, not a validation failure). -/
theorem c9_version_string_silently_defaulted :
    loadedVersion (loadRules ("/p") false c9fs) = some 2 ∧
    (runCli ("/p") ("T") [("sync")] c9fs).exitCode = 0 ∧
    (runCli ("/p") ("T") [("sync")] c9fs).errLines = [] ∧
    (runCli ("/p") ("T") [("check")] c9fs).exitCode = 1 ∧
    (runCli ("/p") ("T") [("check")] c9fs).errLines = [] := by
  decide

/-- Without `--write` among the arguments, the option loop can only return
options whose `write` flag equals the initial one. -/
theorem ptaaWriteFlag (commandName : String) (aw ab : Bool) :
    ∀ (args : List String) (o o' : TargetedOpts), ¬ (("--write") ∈ args) →
      parseTargetedArgsAux commandName aw ab args o = .ok o' → o'.write = o.write := by
  intro args o
  induction args, o using parseTargetedArgsAux.induct commandName aw ab with
  | case1 options =>
    intro o' _ heq
    simp only [parseTargetedArgsAux, Except.ok.injEq] at heq
    subst heq
    rfl
  | case2 options =>
    intro o' _ heq
    unfold parseTargetedArgsAux at heq
    simp at heq
  | case3 options rest' =>
    intro o' _ heq
    unfold parseTargetedArgsAux at heq
    simp at heq
  | case4 options value rest' hval ih =>
    intro o' hmem heq
    simp only [parseTargetedArgsAux, if_pos rfl] at heq
    rw [if_neg hval] at heq
    exact ih _ (by intro h; exact hmem (by simp [h])) heq
  | case5 rest options hne ih =>
    intro o' hmem heq
    unfold parseTargetedArgsAux at heq
    rw [if_neg (by decide : ¬(("--diff" : String) = ("--target" : String))), if_pos rfl] at heq
    exact ih _ (by intro h; exact hmem (by simp [h])) heq
  | case6 arg rest options h1 h2 h3 ih =>
    intro o' hmem heq
    exfalso
    apply hmem
    have harg : arg = ("--write") := by
      simp at h3
      exact h3.1
    simp [harg]
  | case7 arg rest options h1 h2 h3 h4 ih =>
    intro o' hmem heq
    unfold parseTargetedArgsAux at heq
    rw [if_neg h1, if_neg h2, if_neg h3, if_pos h4] at heq
    exact ih _ (by intro h; exact hmem (by simp [h])) heq
  | case8 arg rest options h1 h2 h3 h4 =>
    intro o' _ heq
    unfold parseTargetedArgsAux at heq
    rw [if_neg h1, if_neg h2, if_neg h3, if_neg h4] at heq
    cases heq

/-- A successful `sync` option parse without `--write` yields `write =
false`. -/
theorem ptaWriteFalse (args : List String) (h : ¬ (("--write") ∈ args)) (r : TargetedArgs)
    (hp : parseTargetedArgs ("sync") args true true = .ok r) : r.write = false := by
  unfold parseTargetedArgs at hp
  cases haux : parseTargetedArgsAux ("sync") true true args
      { targetSpec := ("all"), diff := false, write := false, backup := false } with
  | error e => rw [haux] at hp; simp at hp
  | ok o =>
    rw [haux] at hp
    dsimp only at hp
    have how : o.write = false := ptaaWriteFlag ("sync") true true args _ o h haux
    rw [how] at hp
    by_cases hb : o.backup
    · simp [hb] at hp
    · simp only [hb, Bool.false_and, Bool.and_false] at hp
      simp at hp
      cases hg : getTargetsFromSpec o.targetSpec with
      | error e => rw [hg] at hp; simp at hp
      | ok ids =>
        rw [hg] at hp
        simp at hp
        rw [← hp]

/-- C7: a sync invocation without the `--write` flag (dry-run, the default)
never changes the filesystem, for every argument list, project root, rules
document and pre-existing file contents. -/
theorem c7_sync_dry_run_leaves_fs_unchanged (rootDir timestamp : String)
    (args : List String) (fs : Fs) (h : ¬ (("--write") ∈ args)) :
    (syncCommand rootDir timestamp args fs).2 = fs := by
  cases hp : parseTargetedArgs ("sync") args true true with
  | error e => simp [syncCommand, hp]
  | ok options =>
    have hw : options.write = false := ptaWriteFalse args h options hp
    cases hl : loadRules rootDir false fs with
    | error e => simp [syncCommand, hp, hl]
    | ok loaded => simp [syncCommand, hp, hl, hw]

/-- C7 witness: a concrete dry-run sync (with `--diff`, against the concrete
filesystem `c9fs`) leaves the filesystem exactly as it was. -/
theorem c7_sync_dry_run_leaves_fs_unchanged_witness :
    (syncCommand ("/p") ("T") [("--diff")] c9fs).2 = c9fs :=
  c7_sync_dry_run_leaves_fs_unchanged ("/p") ("T") [("--diff")] c9fs (by decide)

/-- `initCommand` either returns exit code 0 or throws. -/
theorem initOkZero (rootDir : String) (args : List String) (fs : Fs) :
    (initCommand rootDir args fs).1 = .ok 0 ∨
      ∃ e, (initCommand rootDir args fs).1 = .error e := by
  unfold initCommand
  repeat' split
  all_goals try simp
  all_goals
    (by_cases hex : existsS fs (pathResolve rootDir RULES_RELATIVE_PATH) = true <;>
      simp only [hex, if_true, if_false] <;> (repeat' split) <;> simp)

/-- `syncCommand` either returns exit code 0 or throws. -/
theorem syncOkZero (rootDir timestamp : String) (args : List String) (fs : Fs) :
    (syncCommand rootDir timestamp args fs).1 = .ok 0 ∨
      ∃ e, (syncCommand rootDir timestamp args fs).1 = .error e := by
  unfold syncCommand
  repeat' split
  all_goals try simp
  all_goals rename_i x1 options heq1 x2 loaded heq2 hw
  all_goals
    (cases hg : getUniqueWritePlans (buildTargetPlans rootDir loaded.rules options.targetIds fs) with
    | error e => simp [hg]
    | ok u =>
      obtain ⟨u1, u2⟩ := u
      simp [hg])

/-- C10: the CLI entry point never propagates an exception: a command that
throws is caught, its message reaches standard error prefixed with
`Error: `, and the exit code is 1; a command that completes returns its own
exit code, and a completing `init` or `sync` always returns 0. -/
theorem c10_runCli_catches_all_errors (rootDir timestamp : String) (args : List String)
    (fs : Fs) :
    (∀ e fs', dispatchCommand rootDir timestamp args fs = (.error e, fs') →
      runCli rootDir timestamp args fs = ⟨1, fs', [("Error: " ++ e)]⟩) ∧
    (∀ n fs', dispatchCommand rootDir timestamp args fs = (.ok n, fs') →
      runCli rootDir timestamp args fs = ⟨n, fs', []⟩) ∧
    (∀ rest n fs', args = ("init") :: rest →
      dispatchCommand rootDir timestamp args fs = (.ok n, fs') → n = 0) ∧
    (∀ rest n fs', args = ("sync") :: rest →
      dispatchCommand rootDir timestamp args fs = (.ok n, fs') → n = 0) := by
  refine ⟨?_, ?_, ?_, ?_⟩
  · intro e fs' h
    unfold runCli
    rw [h]
  · intro n fs' h
    unfold runCli
    rw [h]
  · intro rest n fs' ha h
    subst ha
    unfold dispatchCommand at h
    simp at h
    rcases initOkZero rootDir rest fs with h0 | ⟨e, he⟩
    · have h1 := congrArg Prod.fst h
      rw [h0] at h1
      exact (Except.ok.inj h1).symm
    · have h1 := congrArg Prod.fst h
      rw [he] at h1
      cases h1
  · intro rest n fs' ha h
    subst ha
    unfold dispatchCommand at h
    simp at h
    rcases syncOkZero rootDir timestamp rest fs with h0 | ⟨e, he⟩
    · have h1 := congrArg Prod.fst h
      rw [h0] at h1
      exact (Except.ok.inj h1).symm
    · have h1 := congrArg Prod.fst h
      rw [he] at h1
      cases h1

/-- C10 witness: an unknown command is caught and reported on stderr with
exit code 1, and a completing `init` returns exit code 0. -/
theorem c10_runCli_catches_all_errors_witness :
    runCli ("/p") ("T") [("bogus")] [] =
      ⟨1, [], [("Error: " ++ (("Unknown command: bogus") ++ ("\n\n") ++ usage))]⟩ ∧
    runCli ("/p") ("T") [("init")] c9fs = ⟨0, c9fs, []⟩ :=
  ⟨(c10_runCli_catches_all_errors ("/p") ("T") [("bogus")] []).1
      (("Unknown command: bogus") ++ ("\n\n") ++ usage) [] (by rfl),
   (c10_runCli_catches_all_errors ("/p") ("T") [("init")] c9fs).2.1 0 c9fs (by rfl)⟩


theorem plansLookupAppend (a b : List (String × Plan)) (k : String) :
    plansLookup (a ++ b) k =
      (match plansLookup a k with
       | some v => some v
       | none => plansLookup b k) := by
  induction a with
  | nil => simp [plansLookup]
  | cons kv rest ih =>
    obtain ⟨k', v⟩ := kv
    by_cases h : k' = k
    · simp [plansLookup, h]
    · simp [plansLookup, h, ih]

theorem plansLookupNoneNotMem (a : List (String × Plan)) (k : String)
    (h : plansLookup a k = none) : ¬ (k ∈ a.map Prod.fst) := by
  induction a with
  | nil => simp
  | cons kv rest ih =>
    obtain ⟨k', v⟩ := kv
    by_cases hk : k' = k
    · simp [plansLookup, hk] at h
    · simp [plansLookup, hk] at h
      simp [ih h]
      intro hc
      exact hk hc.symm

theorem uniqueAuxOkAgree :
    ∀ (plans : List Plan) (byPath : List (String × Plan)) (dups : List DupNote)
      (r : List (String × Plan) × List DupNote),
      getUniqueWritePlansAux plans byPath dups = .ok r →
      ∀ p, p ∈ plans → p.enabled = true → p.changed = true →
        (∀ q, plansLookup byPath p.targetPath = some q → q.desiredText = p.desiredText) ∧
        (∀ q, q ∈ plans → q.enabled = true → q.changed = true →
          q.targetPath = p.targetPath → q.desiredText = p.desiredText) := by
  intro plans
  induction plans with
  | nil =>
    intro byPath dups r h p hp
    cases hp
  | cons head tail ih =>
    intro byPath dups r h p hp hen hch
    unfold getUniqueWritePlansAux at h
    by_cases hhead : (!head.enabled || !head.changed) = true
    · rw [if_pos hhead] at h
      rcases List.mem_cons.mp hp with hpe | hpt
      · subst hpe
        simp [hen, hch] at hhead
      · have hI := ih byPath dups r h p hpt hen hch
        refine ⟨hI.1, ?_⟩
        intro q hq hqe hqc hpath
        rcases List.mem_cons.mp hq with hqe' | hqt
        · subst hqe'
          simp [hqe, hqc] at hhead
        · exact hI.2 q hqt hqe hqc hpath
    · rw [if_neg hhead] at h
      have hhb : head.enabled = true ∧ head.changed = true := by
        constructor <;> (by_cases h1 : head.enabled = true <;> by_cases h2 : head.changed = true <;>
          simp [h1, h2] at hhead ⊢)
      cases hlk : plansLookup byPath head.targetPath with
      | none =>
        rw [hlk] at h
        dsimp only at h
        rcases List.mem_cons.mp hp with hpe | hpt
        · subst hpe
          constructor
          · intro q hq
            rw [hlk] at hq
            cases hq
          · intro q hq hqe hqc hpath
            rcases List.mem_cons.mp hq with hqe' | hqt
            · subst hqe'; rfl
            · have hI := ih _ _ r h q hqt hqe hqc
              have hlk2 : plansLookup (byPath ++ [(p.targetPath, p)]) q.targetPath = some p := by
                rw [plansLookupAppend, hpath, hlk]
                simp [plansLookup]
              exact (hI.1 p hlk2).symm
        · have hI := ih _ _ r h p hpt hen hch
          constructor
          · intro q hq
            apply hI.1 q
            rw [plansLookupAppend, hq]
          · intro q hq hqe hqc hpath
            rcases List.mem_cons.mp hq with hqe' | hqt
            · subst hqe'
              have hlk2 : plansLookup (byPath ++ [(q.targetPath, q)]) p.targetPath = some q := by
                rw [plansLookupAppend, ← hpath, hlk]
                simp [plansLookup]
              exact hI.1 q hlk2
            · exact hI.2 q hqt hqe hqc hpath
      | some existing =>
        rw [hlk] at h
        dsimp only at h
        by_cases hde : existing.desiredText ≠ head.desiredText
        · rw [if_pos hde] at h
          cases h
        · rw [if_neg hde] at h
          have heq : existing.desiredText = head.desiredText := not_not.mp hde
          rcases List.mem_cons.mp hp with hpe | hpt
          · subst hpe
            constructor
            · intro q hq
              rw [hlk] at hq
              cases hq
              exact heq
            · intro q hq hqe hqc hpath
              rcases List.mem_cons.mp hq with hqe' | hqt
              · subst hqe'; rfl
              · have hI := ih byPath _ r h q hqt hqe hqc
                have : existing.desiredText = q.desiredText := by
                  apply hI.1
                  rw [hpath, hlk]
                rw [← this, heq]
          · have hI := ih byPath _ r h p hpt hen hch
            constructor
            · exact hI.1
            · intro q hq hqe hqc hpath
              rcases List.mem_cons.mp hq with hqe' | hqt
              · subst hqe'
                have : existing.desiredText = p.desiredText := by
                  apply hI.1
                  rw [← hpath, hlk]
                rw [← this, heq]
              · exact hI.2 q hqt hqe hqc hpath

theorem getUniqueWritePlansConflict (plans : List Plan) (p q : Plan)
    (hp : p ∈ plans) (hq : q ∈ plans) (hpe : p.enabled = true) (hpc : p.changed = true)
    (hqe : q.enabled = true) (hqc : q.changed = true)
    (hpath : q.targetPath = p.targetPath) (hdiff : q.desiredText ≠ p.desiredText) :
    ∃ e, getUniqueWritePlans plans = .error e := by
  cases hu : getUniqueWritePlans plans with
  | error e => exact ⟨e, rfl⟩
  | ok r =>
    exfalso
    unfold getUniqueWritePlans at hu
    cases haux : getUniqueWritePlansAux plans [] [] with
    | error e => rw [haux] at hu; cases hu
    | ok pair =>
      have hI := uniqueAuxOkAgree plans [] [] pair haux p hp hpe hpc
      exact hdiff (hI.2 q hq hqe hqc hpath)

theorem uniqueAuxLookupChar :
    ∀ (plans : List Plan) (byPath : List (String × Plan)) (dups : List DupNote)
      (byPath' : List (String × Plan)) (dups' : List DupNote),
      getUniqueWritePlansAux plans byPath dups = .ok (byPath', dups') →
      ∀ P, plansLookup byPath' P =
        (match plansLookup byPath P with
         | some x => some x
         | none => firstPlanFor plans P) := by
  intro plans
  induction plans with
  | nil =>
    intro byPath dups byPath' dups' h P
    unfold getUniqueWritePlansAux at h
    cases h
    cases hx : plansLookup byPath P <;> simp [firstPlanFor, hx]
  | cons head tail ih =>
    intro byPath dups byPath' dups' h P
    unfold getUniqueWritePlansAux at h
    by_cases hhead : (!head.enabled || !head.changed) = true
    · rw [if_pos hhead] at h
      rw [ih byPath dups byPath' dups' h P]
      have hfp : firstPlanFor (head :: tail) P = firstPlanFor tail P := by
        unfold firstPlanFor
        rw [List.find?]
        have : (head.enabled && head.changed && head.targetPath == P) = false := by
          rcases Bool.or_eq_true_iff.mp hhead with h1 | h1 <;>
            simp [Bool.not_eq_true'] at h1 <;> simp [h1]
        rw [this]
      rw [hfp]
    · rw [if_neg hhead] at h
      have hhb : head.enabled = true ∧ head.changed = true := by
        constructor <;> (by_cases h1 : head.enabled = true <;> by_cases h2 : head.changed = true <;>
          simp [h1, h2] at hhead ⊢)
      cases hlk : plansLookup byPath head.targetPath with
      | none =>
        rw [hlk] at h
        dsimp only at h
        rw [ih _ dups byPath' dups' h P]
        rw [plansLookupAppend]
        by_cases hP : head.targetPath = P
        · subst hP
          rw [hlk]
          have : plansLookup [(head.targetPath, head)] head.targetPath = some head := by
            simp [plansLookup]
          rw [this]
          have hfp : firstPlanFor (head :: tail) head.targetPath = some head := by
            unfold firstPlanFor
            rw [List.find?]
            have : (head.enabled && head.changed && head.targetPath == head.targetPath) = true := by
              simp [hhb.1, hhb.2]
            rw [this]
          rw [hfp]
        · have hone : plansLookup [(head.targetPath, head)] P = none := by
            simp [plansLookup, hP]
          have hfp : firstPlanFor (head :: tail) P = firstPlanFor tail P := by
            unfold firstPlanFor
            rw [List.find?]
            have : (head.enabled && head.changed && head.targetPath == P) = false := by
              simp [hP]
            rw [this]
          rw [hfp]
          cases hx : plansLookup byPath P with
          | none => rw [hone]
          | some v => rfl
      | some existing =>
        rw [hlk] at h
        dsimp only at h
        by_cases hde : existing.desiredText ≠ head.desiredText
        · rw [if_pos hde] at h; cases h
        · rw [if_neg hde] at h
          rw [ih byPath _ byPath' dups' h P]
          by_cases hP : head.targetPath = P
          · subst hP
            rw [hlk]
          · have hfp : firstPlanFor (head :: tail) P = firstPlanFor tail P := by
              unfold firstPlanFor
              rw [List.find?]
              have : (head.enabled && head.changed && head.targetPath == P) = false := by
                simp [hP]
              rw [this]
            rw [hfp]

theorem uniqueAuxKeyPath :
    ∀ (plans : List Plan) (byPath : List (String × Plan)) (dups : List DupNote)
      (byPath' : List (String × Plan)) (dups' : List DupNote),
      getUniqueWritePlansAux plans byPath dups = .ok (byPath', dups') →
      (∀ kv ∈ byPath, Prod.fst kv = (Prod.snd kv).targetPath) →
      ∀ kv ∈ byPath', Prod.fst kv = (Prod.snd kv).targetPath := by
  intro plans
  induction plans with
  | nil =>
    intro byPath dups byPath' dups' h hinv
    unfold getUniqueWritePlansAux at h
    cases h
    exact hinv
  | cons head tail ih =>
    intro byPath dups byPath' dups' h hinv
    unfold getUniqueWritePlansAux at h
    by_cases hhead : (!head.enabled || !head.changed) = true
    · rw [if_pos hhead] at h
      exact ih byPath dups byPath' dups' h hinv
    · rw [if_neg hhead] at h
      cases hlk : plansLookup byPath head.targetPath with
      | none =>
        rw [hlk] at h
        dsimp only at h
        apply ih _ dups byPath' dups' h
        intro kv hkv
        rcases List.mem_append.mp hkv with hkv | hkv
        · exact hinv kv hkv
        · simp at hkv
          subst hkv
          rfl
      | some existing =>
        rw [hlk] at h
        dsimp only at h
        by_cases hde : existing.desiredText ≠ head.desiredText
        · rw [if_pos hde] at h; cases h
        · rw [if_neg hde] at h
          exact ih byPath _ byPath' dups' h hinv

theorem uniqueAuxNodupKeys :
    ∀ (plans : List Plan) (byPath : List (String × Plan)) (dups : List DupNote)
      (byPath' : List (String × Plan)) (dups' : List DupNote),
      getUniqueWritePlansAux plans byPath dups = .ok (byPath', dups') →
      (byPath.map Prod.fst).Nodup → (byPath'.map Prod.fst).Nodup := by
  intro plans
  induction plans with
  | nil =>
    intro byPath dups byPath' dups' h hnd
    unfold getUniqueWritePlansAux at h
    cases h
    exact hnd
  | cons head tail ih =>
    intro byPath dups byPath' dups' h hnd
    unfold getUniqueWritePlansAux at h
    by_cases hhead : (!head.enabled || !head.changed) = true
    · rw [if_pos hhead] at h
      exact ih byPath dups byPath' dups' h hnd
    · rw [if_neg hhead] at h
      cases hlk : plansLookup byPath head.targetPath with
      | none =>
        rw [hlk] at h
        dsimp only at h
        apply ih _ dups byPath' dups' h
        rw [List.map_append]
        apply List.Nodup.append hnd (by simp)
        intro a ha hb
        simp at hb
        subst hb
        exact plansLookupNoneNotMem byPath head.targetPath hlk ha
      | some existing =>
        rw [hlk] at h
        dsimp only at h
        by_cases hde : existing.desiredText ≠ head.desiredText
        · rw [if_pos hde] at h; cases h
        · rw [if_neg hde] at h
          exact ih byPath _ byPath' dups' h hnd

theorem plansLookupNotMemNone (a : List (String × Plan)) (k : String)
    (h : ¬ (k ∈ a.map Prod.fst)) : plansLookup a k = none := by
  induction a with
  | nil => rfl
  | cons kv rest ih =>
    obtain ⟨k', v⟩ := kv
    simp only [List.map_cons, List.mem_cons, not_or] at h
    unfold plansLookup
    rw [if_neg (fun hh => h.1 hh.symm), ih h.2]

theorem plansCountByKey (byPath : List (String × Plan)) (P : String)
    (hnd : (byPath.map Prod.fst).Nodup)
    (hinv : ∀ kv ∈ byPath, Prod.fst kv = (Prod.snd kv).targetPath) :
    ((byPath.map Prod.snd).filter (fun pl => pl.targetPath == P)).length =
      (if (plansLookup byPath P).isSome then 1 else 0) := by
  induction byPath with
  | nil => simp [plansLookup]
  | cons kv rest ih =>
    obtain ⟨k, pl⟩ := kv
    have hk : k = pl.targetPath := hinv (k, pl) (List.mem_cons_self _ _)
    simp only [List.map_cons, List.nodup_cons] at hnd
    have hrest := ih hnd.2 (fun kv hkv => hinv kv (List.mem_cons_of_mem _ hkv))
    by_cases hkP : k = P
    · subst hkP
      have hlkrest : plansLookup rest k = none := plansLookupNotMemNone rest k hnd.1
      have hfilter : (pl.targetPath == k) = true := by simp [← hk]
      simp [plansLookup, List.filter_cons, hfilter, hrest, hlkrest]
    · have hfilter : (pl.targetPath == P) = false := by
        simp [← hk]
        exact hkP
      simp [plansLookup, hkP, List.filter_cons, hfilter, hrest]

theorem uniqueAuxNoConflictOk :
    ∀ (plans : List Plan) (byPath : List (String × Plan)) (dups : List DupNote),
      (∀ p, p ∈ plans → p.enabled = true → p.changed = true →
        ∀ q, plansLookup byPath p.targetPath = some q → q.desiredText = p.desiredText) →
      (∀ p q, p ∈ plans → q ∈ plans → p.enabled = true → p.changed = true →
        q.enabled = true → q.changed = true → p.targetPath = q.targetPath →
        p.desiredText = q.desiredText) →
      ∃ r, getUniqueWritePlansAux plans byPath dups = .ok r := by
  intro plans
  induction plans with
  | nil =>
    intro byPath dups _ _
    exact ⟨(byPath, dups), rfl⟩
  | cons head tail ih =>
    intro byPath dups h1 h2
    unfold getUniqueWritePlansAux
    by_cases hhead : (!head.enabled || !head.changed) = true
    · rw [if_pos hhead]
      exact ih byPath dups
        (fun p hp => h1 p (List.mem_cons_of_mem _ hp))
        (fun p q hp hq => h2 p q (List.mem_cons_of_mem _ hp) (List.mem_cons_of_mem _ hq))
    · rw [if_neg hhead]
      have hhb : head.enabled = true ∧ head.changed = true := by
        constructor <;> (by_cases ha : head.enabled = true <;> by_cases hb : head.changed = true <;>
          simp [ha, hb] at hhead ⊢)
      cases hlk : plansLookup byPath head.targetPath with
      | none =>
        dsimp only
        apply ih _ dups
        · intro p hp hpe hpc q hq
          rw [plansLookupAppend] at hq
          cases hx : plansLookup byPath p.targetPath with
          | some v =>
            rw [hx] at hq
            cases hq
            exact h1 p (List.mem_cons_of_mem _ hp) hpe hpc q hx
          | none =>
            rw [hx] at hq
            by_cases hpp : head.targetPath = p.targetPath
            · rw [← hpp] at hq
              simp [plansLookup] at hq
              rw [← hq]
              exact h2 head p (List.mem_cons_self _ _) (List.mem_cons_of_mem _ hp)
                hhb.1 hhb.2 hpe hpc hpp
            · simp [plansLookup, hpp] at hq
        · intro p q hp hq hpe hpc hqe hqc hpath
          exact h2 p q (List.mem_cons_of_mem _ hp) (List.mem_cons_of_mem _ hq)
            hpe hpc hqe hqc hpath
      | some existing =>
        dsimp only
        have hagree : existing.desiredText = head.desiredText :=
          h1 head (List.mem_cons_self _ _) hhb.1 hhb.2 existing hlk
        rw [if_neg (by simp [hagree])]
        exact ih byPath _
          (fun p hp => h1 p (List.mem_cons_of_mem _ hp))
          (fun p q hp hq => h2 p q (List.mem_cons_of_mem _ hp) (List.mem_cons_of_mem _ hq))

/-- C2 counterexample: two enabled plans (`claude` remapped onto `AGENTS.md`,
and `codex`) resolve to the same output path with differing desired texts,
yet — because the `claude` plan's desired text already equals the file
content (`changed = false`) — a write-mode sync does not abort: it exits 0
with nothing on standard error and modifies the shared file. -/
theorem c2_unchanged_colliding_plan_not_detected :
    c2shape (buildTargetPlans ("/p") c2doc [("claude"), ("codex")] c2fs) = true ∧
    (runCli ("/p") ("T") [("sync"), ("--target"), ("claude,codex"), ("--write")] c2fs).exitCode
      = 0 ∧
    (runCli ("/p") ("T") [("sync"), ("--target"), ("claude,codex"), ("--write")] c2fs).errLines
      = [] ∧
    (runCli ("/p") ("T") [("sync"), ("--target"), ("claude,codex"), ("--write")] c2fs).fs ≠ c2fs := by
  decide

/-- C2 (amended): restricted to enabled plans whose desired text differs from
the current file content (`changed = true`).  First half: if two such plans
share a resolved path with differing desired texts, a write-mode sync throws
before any write and the filesystem is untouched.  Second half: if all such
plans agree on desired texts path-by-path and some changed plan targets path
`P`, the pre-flight succeeds, exactly one deduplicated plan writes `P`, and
the sync completes with exit code 0 performing exactly the deduplicated
writes. -/
theorem c2_conflicting_same_path_plans_abort_write :
    (∀ (rootDir timestamp : String) (args : List String) (fs : Fs)
        (options : TargetedArgs) (loaded : LoadedRules) (p q : Plan),
      parseTargetedArgs ("sync") args true true = .ok options → options.write = true →
      loadRules rootDir false fs = .ok loaded →
      p ∈ buildTargetPlans rootDir loaded.rules options.targetIds fs →
      q ∈ buildTargetPlans rootDir loaded.rules options.targetIds fs →
      p.enabled = true → p.changed = true → q.enabled = true → q.changed = true →
      q.targetPath = p.targetPath → q.desiredText ≠ p.desiredText →
      ∃ e, syncCommand rootDir timestamp args fs = (.error e, fs)) ∧
    (∀ (rootDir timestamp : String) (args : List String) (fs : Fs)
        (options : TargetedArgs) (loaded : LoadedRules) (P d : String),
      parseTargetedArgs ("sync") args true true = .ok options → options.write = true →
      loadRules rootDir false fs = .ok loaded →
      (∀ r ∈ buildTargetPlans rootDir loaded.rules options.targetIds fs,
        ∀ s ∈ buildTargetPlans rootDir loaded.rules options.targetIds fs,
        r.enabled = true → r.changed = true → s.enabled = true → s.changed = true →
        r.targetPath = s.targetPath → r.desiredText = s.desiredText) →
      (∃ r ∈ buildTargetPlans rootDir loaded.rules options.targetIds fs,
        r.enabled = true ∧ r.changed = true ∧ r.targetPath = P ∧ r.desiredText = d) →
      ∃ uniq dups,
        getUniqueWritePlans (buildTargetPlans rootDir loaded.rules options.targetIds fs) =
          .ok (uniq, dups) ∧
        (uniq.filter (fun r => r.targetPath == P)).length = 1 ∧
        syncCommand rootDir timestamp args fs =
          (.ok 0, applyWrites options.backup timestamp uniq fs)) := by
  constructor
  · intro rootDir timestamp args fs options loaded p q hparse hw hload hp hq hpe hpc hqe hqc
      hpath hdiff
    obtain ⟨e, he⟩ := getUniqueWritePlansConflict _ p q hp hq hpe hpc hqe hqc hpath hdiff
    refine ⟨e, ?_⟩
    unfold syncCommand
    rw [hparse]
    dsimp only
    rw [hload]
    dsimp only
    rw [hw]
    simp only [Bool.not_true, Bool.false_eq_true, if_false]
    rw [he]
  · intro rootDir timestamp args fs options loaded P d hparse hw hload hglobal hex
    obtain ⟨rr, haux⟩ := uniqueAuxNoConflictOk
      (buildTargetPlans rootDir loaded.rules options.targetIds fs) [] []
      (fun p _ _ _ q hq => by simp [plansLookup] at hq)
      (fun p q hp hq => hglobal p hp q hq)
    obtain ⟨byPath2, dups2⟩ := rr
    have hu : getUniqueWritePlans (buildTargetPlans rootDir loaded.rules options.targetIds fs) =
        .ok (byPath2.map Prod.snd, dups2) := by
      unfold getUniqueWritePlans
      rw [haux]
    refine ⟨byPath2.map Prod.snd, dups2, hu, ?_, ?_⟩
    · have hcount := plansCountByKey byPath2 P
        (uniqueAuxNodupKeys _ [] [] byPath2 dups2 haux (by simp))
        (uniqueAuxKeyPath _ [] [] byPath2 dups2 haux (by simp))
      rw [hcount]
      have hchar := uniqueAuxLookupChar _ [] [] byPath2 dups2 haux P
      have hinit : plansLookup ([] : List (String × Plan)) P = none := rfl
      rw [hinit] at hchar
      dsimp only at hchar
      obtain ⟨r, hr, hre, hrc, hrP, _⟩ := hex
      have hfind : (firstPlanFor
          (buildTargetPlans rootDir loaded.rules options.targetIds fs) P).isSome = true := by
        unfold firstPlanFor
        rw [List.find?_isSome]
        exact ⟨r, hr, by simp [hre, hrc, hrP]⟩
      rw [hchar, hfind]
      simp
    · unfold syncCommand
      rw [hparse]
      dsimp only
      rw [hload]
      dsimp only
      rw [hw]
      simp only [Bool.not_true, Bool.false_eq_true, if_false]
      rw [hu]

/-- C2 (amended) witness: with both colliding plans changed (`claude`
remapped onto `AGENTS.md`, no pre-existing file), the write aborts with the
filesystem untouched; with `codex` and `opencode` sharing identical desired
text for `AGENTS.md`, the pre-flight succeeds and exactly one deduplicated
plan writes that path. -/
theorem c2_conflicting_same_path_plans_abort_write_witness :
    (∃ e, syncCommand ("/p") ("T") [("--target"), ("claude,codex"), ("--write")] c2fsB =
      (.error e, c2fsB)) ∧
    (∃ uniq dups,
      getUniqueWritePlans c2sharedPlans = .ok (uniq, dups) ∧
      (uniq.filter (fun r => r.targetPath == ("/p/AGENTS.md"))).length = 1 ∧
      syncCommand ("/p") ("T") [("--target"), ("codex,opencode"), ("--write")] c2fsB =
        (.ok 0, applyWrites false ("T") uniq c2fsB)) :=
  ⟨c2_conflicting_same_path_plans_abort_write.1 ("/p") ("T")
      [("--target"), ("claude,codex"), ("--write")] c2fsB
      ⟨[("claude"), ("codex")], false, true, false⟩
      ⟨c2doc, ("/p/.agentrules/rules.yaml"), true⟩
      (c2conflictPlans.headD defaultPlan) ((c2conflictPlans.drop 1).headD defaultPlan)
      (by decide) (by decide) (by decide) (by decide) (by decide) (by decide) (by decide)
      (by decide) (by decide) (by decide) (by decide),
   c2_conflicting_same_path_plans_abort_write.2 ("/p") ("T")
      [("--target"), ("codex,opencode"), ("--write")] c2fsB
      ⟨[("codex"), ("opencode")], false, true, false⟩
      ⟨c2doc, ("/p/.agentrules/rules.yaml"), true⟩
      ("/p/AGENTS.md") c2sharedDesired
      (by decide) (by decide) (by decide) (by decide) (by decide)⟩

/-! ## Round-trip groundwork: character classes and trimming -/

theorem ws_cases {c : Char} (h : isWsChar c = true) :
    c = ' ' ∨ c = '\t' ∨ c = '\n' ∨ c = '\r' ∨ c = '\x0b' ∨ c = '\x0c' := by
  simp only [isWsChar, Bool.or_eq_true, decide_eq_true_eq] at h
  tauto

theorem keyChar_not_ws {c : Char} (h : isKeyChar c = true) : isWsChar c = false := by
  cases hw : isWsChar c with
  | false => rfl
  | true =>
    exfalso
    rcases ws_cases hw with hc | hc | hc | hc | hc | hc <;> subst hc <;>
      exact absurd h (by decide)

theorem keyChar_not_nl {c : Char} (h : isKeyChar c = true) : c ≠ '\n' ∧ c ≠ '\r' := by
  have hx := keyChar_not_ws h
  constructor <;> rintro rfl <;> exact absurd hx (by decide)

/-! Trim lemmas -/

theorem trimStartL_cons_nonws {c : Char} (h : isWsChar c = false) (l : List Char) :
    trimStartL (c :: l) = c :: l := by
  simp [trimStartL, List.dropWhile_cons, h]

theorem trimEndL_concat_nonws {c : Char} (h : isWsChar c = false) (l : List Char) :
    trimEndL (l ++ [c]) = l ++ [c] := by
  simp [trimEndL, List.dropWhile_cons, h]

theorem trimL_singleton_nonws {c : Char} (hc : isWsChar c = false) :
    trimL [c] = [c] := by
  simp only [trimL]
  rw [trimStartL_cons_nonws hc]
  have h := trimEndL_concat_nonws hc ([] : List Char)
  simpa using h

theorem jsTrim_ne_empty_iff (s : String) : jsTrim s ≠ ("") ↔ trimL s.data ≠ [] := by
  constructor
  · intro h hc
    apply h
    show (⟨trimL s.data⟩ : String) = ("")
    rw [hc]
  · intro h hc
    apply h
    have hd : (jsTrim s).data = ("").data := by rw [hc]
    simpa [jsTrim] using hd

/-! Scanning across appended lists -/

theorem objGet_append_right (a b : List (String × Value)) (k : String)
    (h : ¬ k ∈ a.map Prod.fst) : objGet (a ++ b) k = objGet b k := by
  induction a with
  | nil => rfl
  | cons p rest ih =>
    simp only [List.map_cons, List.mem_cons] at h
    push_neg at h
    simp only [List.cons_append, objGet]
    rw [if_neg (fun hh => h.1 hh.symm)]
    exact ih h.2

theorem objGet_append_left (a b : List (String × Value)) (k : String) (v : Value)
    (h : objGet a k = some v) : objGet (a ++ b) k = some v := by
  induction a with
  | nil => simp [objGet] at h
  | cons p rest ih =>
    simp only [objGet] at h ⊢
    by_cases hk : p.1 = k
    · simpa [hk] using h
    · rw [if_neg hk] at h ⊢
      exact ih h

theorem lookupTgt_append_right (a b : List (String × TargetCfg)) (k : String)
    (h : ¬ k ∈ a.map Prod.fst) : lookupTgt (a ++ b) k = lookupTgt b k := by
  induction a with
  | nil => rfl
  | cons p rest ih =>
    simp only [List.map_cons, List.mem_cons] at h
    push_neg at h
    simp only [List.cons_append, lookupTgt]
    rw [if_neg (fun hh => h.1 hh.symm)]
    exact ih h.2

theorem clean_keystr {id : String} (h : ∀ c ∈ id.data, isKeyChar c = true) :
    ∀ c ∈ id.data, c ≠ '\n' ∧ c ≠ '\r' :=
  fun c hc => keyChar_not_nl (h c hc)

end RulesDoctor
